import Mathlib

/-!
Formal model of the bond price synthesis and reconciliation engine of
`src/services/polish-bonds.ts` (both the event-based and the
daily-interpolated variant), with proofs about its schedule builder,
purchase-date resolution, spreadsheet cell extraction, quote diffing,
the sync loop, and the workbook cache.

Dates: the source manipulates JavaScript `Date` values that are always
normalised to local calendar midnight (`toLocalDate`).  We model such a
value by its (proleptic Gregorian) day number `z : Int`; `civilFromDays`
recovers the calendar components (`getFullYear` / `getMonth` / `getDate`)
and `daysFromCivil` is the inverse (`Date.UTC(y,m,d) / MS_PER_DAY` up to
the constant epoch offset, which cancels in every difference the source
takes).  Prices are modelled by `ℚ` (the source computes on IEEE doubles;
none of the verified properties depends on float rounding).
-/

/-! ## Proleptic Gregorian calendar core -/

/-- Gregorian leap-year test for a year residue `q` (the rule only depends on
`y mod 400`, so we state it on `Nat`). -/
def isLeapN (q : Nat) : Bool :=
  decide (q % 4 = 0 ∧ (¬ q % 100 = 0 ∨ q % 400 = 0))

/-- Number of days in year-residue `q`. -/
def yearLen (q : Nat) : Nat := if isLeapN q then 366 else 365

/-- Number of days of month `m` (1-based) in a year with leap flag `leap`. -/
def monthLen (leap : Bool) (m : Nat) : Nat :=
  match m with
  | 2 => if leap then 29 else 28
  | 4 => 30 | 6 => 30 | 9 => 30 | 11 => 30
  | _ => 31

/-- Days in the year strictly before month `m` (1-based; `m = 13` gives the
year length). -/
def monthOff (leap : Bool) (m : Nat) : Nat :=
  (match m with
   | 0 => 0 | 1 => 0 | 2 => 31 | 3 => 59 | 4 => 90 | 5 => 120 | 6 => 151
   | 7 => 181 | 8 => 212 | 9 => 243 | 10 => 273 | 11 => 304 | 12 => 334
   | _ => 365) +
  (if 3 ≤ m ∧ leap then 1 else 0)

/-- Number of leap years among the year residues `0, …, q-1`. -/
def leapsBefore (q : Nat) : Nat := (q + 3) / 4 - (q + 99) / 100 + (q + 399) / 400

/-- Days from year-residue 0, January 1st, to year-residue `q`, January 1st. -/
def daysBeforeYear (q : Nat) : Nat := 365 * q + leapsBefore q

/-- Day number of the calendar date `(y, m, d)` (month and day 1-based);
day number 0 is year 0, January 1st.  This models the value
`Date.UTC(y, m-1, d) / MS_PER_DAY` of the source, shifted by a constant
that cancels in all differences and comparisons. -/
def daysFromCivil (y : Int) (m d : Nat) : Int :=
  let e := y / 400
  let q := (y % 400).toNat
  146097 * e + (daysBeforeYear q + monthOff (isLeapN q) m + (d - 1) : Nat)

/-- Calendar components of a date: the result of `getFullYear`,
`getMonth() + 1` and `getDate`. -/
structure Civil where
  year : Int
  month : Nat
  day : Nat
deriving Repr, DecidableEq

/-- Year walk: starting at year-residue `q` with `r` days remaining, advance
whole years while they fit.  Fuel-bounded (400 suffices within one era). -/
def yearOfGo : Nat → Nat → Nat → Nat × Nat
  | 0, q, r => (q, r)
  | f + 1, q, r => if r < yearLen q then (q, r) else yearOfGo f (q + 1) (r - yearLen q)

/-- Month walk: starting at month `m` with `r` days remaining inside the year,
advance whole months while they fit; returns the month and the 1-based day. -/
def monthOfGo : Nat → Bool → Nat → Nat → Nat × Nat
  | 0, _, m, r => (m, r + 1)
  | f + 1, leap, m, r =>
    if r < monthLen leap m then (m, r + 1)
    else monthOfGo f leap (m + 1) (r - monthLen leap m)

/-- Calendar components of a day number: models `getFullYear` / `getMonth` /
`getDate` of a local-midnight JS `Date` (proleptic Gregorian). -/
def civilFromDays (z : Int) : Civil :=
  let e := z / 146097
  let r := (z % 146097).toNat
  let p := yearOfGo 400 0 r
  let md := monthOfGo 12 (isLeapN p.1) 1 p.2
  ⟨400 * e + p.1, md.1, md.2⟩

/-- Day-of-month of a day number (`getDate`). -/
def dayOfMonth (z : Int) : Nat := (civilFromDays z).day

theorem daysBeforeYear_succ (q : Nat) :
    daysBeforeYear (q + 1) = daysBeforeYear q + yearLen q := by
  unfold daysBeforeYear leapsBefore yearLen isLeapN
  simp only [decide_eq_true_eq]
  split <;> omega

theorem daysBeforeYear_mono {q₁ q₂ : Nat} (h : q₁ ≤ q₂) :
    daysBeforeYear q₁ ≤ daysBeforeYear q₂ := by
  unfold daysBeforeYear leapsBefore
  omega

theorem daysBeforeYear_lt {q₁ q₂ : Nat} (h : q₁ < q₂) :
    daysBeforeYear q₁ < daysBeforeYear q₂ := by
  unfold daysBeforeYear leapsBefore
  omega

theorem yearOfGo_spec : ∀ (f q r : Nat),
    daysBeforeYear q + r < daysBeforeYear (q + f) + yearLen (q + f) →
    daysBeforeYear (yearOfGo f q r).1 + (yearOfGo f q r).2 = daysBeforeYear q + r ∧
    (yearOfGo f q r).2 < yearLen (yearOfGo f q r).1 ∧ q ≤ (yearOfGo f q r).1 := by
  intro f
  induction f with
  | zero =>
    intro q r h
    simp only [Nat.add_zero] at h
    refine ⟨rfl, ?_, Nat.le_refl q⟩
    show r < yearLen q
    omega
  | succ f ih =>
    intro q r h
    by_cases hlt : r < yearLen q
    · have hred : yearOfGo (f + 1) q r = (q, r) := by
        simp [yearOfGo, hlt]
      rw [hred]
      exact ⟨rfl, hlt, Nat.le_refl q⟩
    · simp only [yearOfGo, if_neg hlt]
      have hstep := daysBeforeYear_succ q
      have heq : q + 1 + f = q + (f + 1) := by omega
      have h' : daysBeforeYear (q + 1) + (r - yearLen q) <
          daysBeforeYear (q + 1 + f) + yearLen (q + 1 + f) := by
        rw [heq]
        omega
      have := ih (q + 1) (r - yearLen q) h'
      omega

theorem monthOff_succ : ∀ (m : Nat), m < 13 → ∀ (leap : Bool), 1 ≤ m →
    monthOff leap (m + 1) = monthOff leap m + monthLen leap m := by
  decide

theorem monthOfGo_spec : ∀ (f m r : Nat) (leap : Bool), 1 ≤ m → m + f = 13 →
    monthOff leap m + r < monthOff leap 13 →
    monthOff leap (monthOfGo f leap m r).1 + ((monthOfGo f leap m r).2 - 1)
        = monthOff leap m + r ∧
    1 ≤ (monthOfGo f leap m r).2 ∧
    (monthOfGo f leap m r).2 ≤ monthLen leap (monthOfGo f leap m r).1 ∧
    1 ≤ (monthOfGo f leap m r).1 ∧ (monthOfGo f leap m r).1 ≤ 12 := by
  intro f
  induction f with
  | zero =>
    intro m r leap h1 h13 hlt
    exfalso
    have hm : m = 13 := by omega
    subst hm
    omega
  | succ f ih =>
    intro m r leap h1 h13 hlt
    by_cases hfit : r < monthLen leap m
    · have hred : monthOfGo (f + 1) leap m r = (m, r + 1) := by
        simp [monthOfGo, hfit]
      rw [hred]
      exact ⟨show monthOff leap m + (r + 1 - 1) = monthOff leap m + r by omega,
        show 1 ≤ r + 1 by omega,
        show r + 1 ≤ monthLen leap m by omega,
        h1, show m ≤ 12 by omega⟩
    · simp only [monthOfGo, if_neg hfit]
      have hm12 : m < 13 := by omega
      have hstep := monthOff_succ m hm12 leap h1
      have := ih (m + 1) (r - monthLen leap m) leap (by omega) (by omega) (by omega)
      omega

theorem civilFromDays_spec (z : Int) :
    1 ≤ (civilFromDays z).month ∧ (civilFromDays z).month ≤ 12 ∧
    1 ≤ (civilFromDays z).day ∧
    (civilFromDays z).day
      ≤ monthLen (isLeapN (((civilFromDays z).year % 400).toNat)) (civilFromDays z).month ∧
    daysFromCivil (civilFromDays z).year (civilFromDays z).month (civilFromDays z).day = z := by
  have hr0 : 0 ≤ z % 146097 := by omega
  have hr1 : z % 146097 < 146097 := by omega
  set r := (z % 146097).toNat with hrdef
  have hrlt : r < 146097 := by omega
  have hy := yearOfGo_spec 400 0 r (by
    have h400 : daysBeforeYear 400 = 146097 := by decide
    have := daysBeforeYear_mono (show (400:Nat) ≤ 0 + 400 by omega)
    have hpos : 1 ≤ yearLen (0 + 400) := by
      unfold yearLen
      split <;> omega
    have h0 : daysBeforeYear 0 = 0 := by decide
    omega)
  set q := (yearOfGo 400 0 r).1 with hqdef
  set dy := (yearOfGo 400 0 r).2 with hdydef
  have h0 : daysBeforeYear 0 = 0 := by decide
  have hq400 : q < 400 := by
    by_contra hge
    have : daysBeforeYear 400 ≤ daysBeforeYear q := daysBeforeYear_mono (by omega)
    have h400 : daysBeforeYear 400 = 146097 := by decide
    omega
  have hylen : yearLen q = monthOff (isLeapN q) 13 := by
    cases h : isLeapN q <;> simp [yearLen, monthOff, h]
  have hm := monthOfGo_spec 12 1 dy (isLeapN q) (by omega) (by omega) (by
    have h1 : monthOff (isLeapN q) 1 = 0 := by
      unfold monthOff
      simp
    omega)
  set m := (monthOfGo 12 (isLeapN q) 1 dy).1 with hmdef
  set d := (monthOfGo 12 (isLeapN q) 1 dy).2 with hddef
  have hciv : civilFromDays z = ⟨400 * (z / 146097) + q, m, d⟩ := by
    unfold civilFromDays
    rfl
  have hyearmod : ((400 * (z / 146097) + (q : Int)) % 400).toNat = q := by
    omega
  rw [hciv]
  simp only
  refine ⟨by omega, by omega, by omega, ?_, ?_⟩
  · rw [hyearmod]
    omega
  · unfold daysFromCivil
    simp only
    have hediv : (400 * (z / 146097) + (q : Int)) / 400 = z / 146097 := by
      omega
    rw [hediv, hyearmod]
    have h1 : monthOff (isLeapN q) 1 = 0 := by
      unfold monthOff
      simp
    have hsum : daysBeforeYear q + monthOff (isLeapN q) m + (d - 1) = r := by
      omega
    rw [hsum]
    omega

theorem daysFromCivil_civilFromDays (z : Int) :
    daysFromCivil (civilFromDays z).year (civilFromDays z).month (civilFromDays z).day = z :=
  (civilFromDays_spec z).2.2.2.2

theorem civilFromDays_injective {z₁ z₂ : Int} (h : civilFromDays z₁ = civilFromDays z₂) :
    z₁ = z₂ := by
  have h1 := daysFromCivil_civilFromDays z₁
  have h2 := daysFromCivil_civilFromDays z₂
  rw [h] at h1
  exact h1.symm.trans h2

/-! ## Date arithmetic of the source -/

/-- Model of `addDays` of the source (`setDate(getDate() + days)`): shifts a
local calendar date by whole days. -/
def addDays (date : Int) (days : Int) : Int := date + days

/-- Model of `daysBetween` of the source:
`Math.max(0, Math.round((endUtc - startUtc) / MS_PER_DAY))`.  Both operands
are midnights, so the rounded quotient is the exact day difference. -/
def daysBetween (start stop : Int) : Nat := (stop - start).toNat

/-- Normalised day number of the JS constructor `new Date(y, monthIdx, day)`
(month index 0-based and unbounded; `day` may under- or overflow the month). -/
def mkJsDate (y monthIdx day : Int) : Int :=
  let ym := 12 * y + monthIdx
  daysFromCivil (ym / 12) ((ym % 12).toNat + 1) 1 + (day - 1)

/-- Day count of the month addressed by `(y, monthIdx)`, i.e. the value of
`new Date(y, monthIdx + 1, 0).getDate()` in the source's `addMonths`. -/
def lastDayOfMonth (y monthIdx : Int) : Int :=
  let ym := 12 * y + monthIdx
  (monthLen (isLeapN (((ym / 12) % 400).toNat)) ((ym % 12).toNat + 1) : Int)

/-- Model of `addMonths` of the source: month arithmetic with day-of-month
clamping to the target month's last day. -/
def addMonths (date : Int) (months : Int) : Int :=
  let c := civilFromDays date
  let monthIdx := (c.month : Int) - 1 + months
  let lastDay := lastDayOfMonth c.year monthIdx
  let clampedDay := min (c.day : Int) lastDay
  mkJsDate c.year monthIdx clampedDay

/-- Loop of `monthsBetween`: steps `cursor` by one month while it is before
`stop`, at most `fuel` times (the source caps the loop at 600 iterations). -/
def monthsBetweenGo : Nat → Int → Int → Nat → Int × Nat
  | 0, cursor, _, months => (cursor, months)
  | f + 1, cursor, stop, months =>
    if cursor < stop then monthsBetweenGo f (addMonths cursor 1) stop (months + 1)
    else (cursor, months)

/-- Model of `monthsBetween` of the source: the number of whole one-month
steps from `start` to exactly `stop`, `none` when stepping does not land on
`stop` (or the 600-step cap is hit). -/
def monthsBetween (start stop : Int) : Option Nat :=
  let p := monthsBetweenGo 600 start stop 0
  if p.1 = stop then some p.2 else none

/-- Scan loop of `resolvePurchaseDate`: first date in `[cursor, stop]` whose
day-of-month is `pd`.  Fuel-bounded; the caller supplies enough fuel to cover
the whole window. -/
def resolveGo : Nat → Int → Int → Nat → Option Int
  | 0, _, _, _ => none
  | f + 1, cursor, stop, pd =>
    if cursor ≤ stop then
      if dayOfMonth cursor = pd then some cursor
      else resolveGo f (cursor + 1) stop pd
    else none

/-- Model of `resolvePurchaseDate` of the source: scan the sale window for the
first date with the requested day-of-month, falling back to the window start.
A missing, zero (`!purchaseDay`), or out-of-range purchase day yields the
window start. -/
def resolvePurchaseDate (saleStart saleEnd : Int) (purchaseDay : Option Nat) : Int :=
  match purchaseDay with
  | none => saleStart
  | some pd =>
    if pd < 1 ∨ 31 < pd then saleStart
    else
      match resolveGo ((saleEnd - saleStart).toNat + 1) saleStart saleEnd pd with
      | some d => d
      | none => saleStart

/-! ## Decimal formatting (template literals and `padStart`) -/

/-- Decimal digit character. -/
def digitChar (n : Nat) : Char := Char.ofNat (48 + n)

/-- Numeric value of a decimal digit character, if any. -/
def digitVal (c : Char) : Option Nat :=
  if 48 ≤ c.toNat ∧ c.toNat ≤ 57 then some (c.toNat - 48) else none

/-- Decimal digit list of a natural number (fuel-bounded division loop). -/
def natReprGo : Nat → Nat → List Char
  | 0, _ => []
  | f + 1, n => if n < 10 then [digitChar n] else natReprGo f (n / 10) ++ [digitChar (n % 10)]

/-- Decimal representation of a natural number, as in a JS template literal. -/
def natRepr (n : Nat) : List Char := natReprGo (n + 1) n

/-- Decimal representation of an integer, as in a JS template literal. -/
def intRepr (i : Int) : List Char :=
  if i < 0 then '-' :: natRepr i.natAbs else natRepr i.toNat

/-- Model of `padStart(2, '0')` applied to a decimal representation. -/
def pad2 (n : Nat) : List Char := if n < 10 then ['0', digitChar n] else natRepr n

/-- Model of `formatDateISO` of the source: local year (unpadded), month and
day (2-padded), dash-separated. -/
def formatDateISO (z : Int) : String :=
  let c := civilFromDays z
  String.mk (intRepr c.year ++ '-' :: (pad2 c.month ++ '-' :: pad2 c.day))

/-! ## Spreadsheet cell values and numeric extraction -/

/-- Value of a spreadsheet cell as seen by the source (`unknown`).  `num` is a
finite JS number, `nonfinite` a NaN/±Infinity number, `date` a date cell
(already taken at local midnight, as `toLocalDate` does), and `other` covers
`null` / `undefined` / booleans / objects / the empty slot. -/
inductive CellValue where
  | num (q : ℚ)
  | nonfinite
  | str (s : String)
  | date (day : Int)
  | other
deriving Repr, DecidableEq

/-- JS whitespace test (the common characters; exotic Unicode spaces do not
occur in the spreadsheet). -/
def isJsSpace (c : Char) : Bool :=
  c = ' ' ∨ c = '\t' ∨ c = '\n' ∨ c = '\r' ∨ c = '\x0b' ∨ c = '\x0c'

/-- Model of `String.prototype.trim`. -/
def trimChars (cs : List Char) : List Char :=
  ((cs.dropWhile isJsSpace).reverse.dropWhile isJsSpace).reverse

/-- Model of `replace(',', '.')` — JS `replace` with a string pattern replaces
only the first occurrence. -/
def replaceFirstComma : List Char → List Char
  | [] => []
  | c :: cs => if c = ',' then '.' :: cs else c :: replaceFirstComma cs

/-- Longest prefix of decimal digits, as digit values, with the rest. -/
def takeDigits : List Char → List Nat × List Char
  | [] => ([], [])
  | c :: cs =>
    match digitVal c with
    | some d => let p := takeDigits cs; (d :: p.1, p.2)
    | none => ([], c :: cs)

/-- Value of a big-endian digit list. -/
def digitsToNat (ds : List Nat) : Nat := ds.foldl (fun a d => 10 * a + d) 0

/-- Mantissa of a JS decimal numeric literal: `digits`, `digits.digits?` or
`.digits`. -/
def parseMantissa (cs : List Char) : Option (ℚ × List Char) :=
  let p := takeDigits cs
  match p.1, p.2 with
  | [], '.' :: rest =>
    let f := takeDigits rest
    if f.1 = [] then none
    else some ((digitsToNat f.1 : ℚ) / (10 ^ f.1.length : ℚ), f.2)
  | [], _ => none
  | ds, '.' :: rest =>
    let f := takeDigits rest
    some ((digitsToNat ds : ℚ) + (digitsToNat f.1 : ℚ) / (10 ^ f.1.length : ℚ), f.2)
  | ds, rest => some ((digitsToNat ds : ℚ), rest)

/-- Signed decimal exponent (`e`/`E` already consumed). -/
def parseSignedExp : List Char → Option (Int × List Char)
  | '+' :: rest =>
    let p := takeDigits rest
    if p.1 = [] then none else some ((digitsToNat p.1 : Int), p.2)
  | '-' :: rest =>
    let p := takeDigits rest
    if p.1 = [] then none else some (-(digitsToNat p.1 : Int), p.2)
  | rest =>
    let p := takeDigits rest
    if p.1 = [] then none else some ((digitsToNat p.1 : Int), p.2)

/-- Unsigned part of a JS numeric literal (mantissa with optional exponent),
which must consume the whole remaining input. -/
def jsStrNumberCore (cs : List Char) : Option ℚ :=
  match parseMantissa cs with
  | none => none
  | some (q, rest) =>
    match rest with
    | [] => some q
    | 'e' :: r2 =>
      match parseSignedExp r2 with
      | some (ex, []) => some (q * (10 : ℚ) ^ ex)
      | _ => none
    | 'E' :: r2 =>
      match parseSignedExp r2 with
      | some (ex, []) => some (q * (10 : ℚ) ^ ex)
      | _ => none
    | _ => none

/-- Model of JS `Number(string)` on an already-trimmed string; `none` is NaN,
the empty string coerces to `0`.  Hex/octal/binary literals and the literal
`Infinity` (which JS maps to a non-finite number, also rejected by the rest
of the pipeline) are modelled as NaN; neither occurs in spreadsheet cells. -/
def jsStrNumber (cs : List Char) : Option ℚ :=
  match cs with
  | [] => some 0
  | '+' :: rest => jsStrNumberCore rest
  | '-' :: rest => (jsStrNumberCore rest).map Neg.neg
  | _ => jsStrNumberCore cs

/-- Model of `toNumber` of the source: finite numbers pass through; strings
are trimmed, the first comma becomes a dot, and the JS `Number` coercion is
applied; anything else is `null`. -/
def toNumber (v : CellValue) : Option ℚ :=
  match v with
  | .num q => some q
  | .nonfinite => none
  | .str s => jsStrNumber (replaceFirstComma (trimChars s.data))
  | .date _ => none
  | .other => none

/-- Model of `extractNumberRange` of the source: positional `toNumber` over
`count` cells starting at `startIdx`; absent cells are `undefined`. -/
def extractNumberRange (row : List CellValue) (startIdx count : Nat) : List (Option ℚ) :=
  (List.range count).map (fun i => toNumber (row.getD (startIdx + i) .other))

/-- Model of `round2` of the source (`Math.round(v * 100) / 100`; JS
`Math.round` is `⌊x + 1/2⌋`). -/
def round2 (q : ℚ) : ℚ := ((⌊q * 100 + 1/2⌋ : Int) : ℚ) / 100

/-! ## Maturity parsing -/

/-- ASCII lower-casing (`toLowerCase`; the matched unit tokens are ASCII). -/
def toLowerAscii (c : Char) : Char :=
  if 'A' ≤ c ∧ c ≤ 'Z' then Char.ofNat (c.toNat + 32) else c

/-- Model of `replace(/\s+/g, ' ')`: collapse whitespace runs to one space.
The flag records whether the previous character was whitespace. -/
def collapseGo : List Char → Bool → List Char
  | [], _ => []
  | c :: cs, prevSpace =>
    if isJsSpace c then
      if prevSpace then collapseGo cs true else ' ' :: collapseGo cs true
    else c :: collapseGo cs false

/-- Character class `[a-z./]` of the maturity-term regex. -/
def isUnitChar (c : Char) : Bool := ('a' ≤ c ∧ c ≤ 'z') ∨ c = '.' ∨ c = '/'

/-- One anchored attempt of the regex `(\d+)\s*([a-z./]+)`. -/
def matAt (cs : List Char) : Option (Nat × List Char) :=
  let d := takeDigits cs
  if d.1 = [] then none
  else
    let rest := d.2.dropWhile isJsSpace
    let u := rest.takeWhile isUnitChar
    if u = [] then none else some (digitsToNat d.1, u)

/-- First match of `(\d+)\s*([a-z./]+)` (the regex engine advances one
character after each failed anchored attempt; greedy matching of these
character classes never needs backtracking). -/
def matSearch : List Char → Option (Nat × List Char)
  | [] => none
  | c :: cs =>
    match matAt (c :: cs) with
    | some r => some r
    | none => matSearch cs

/-- Boolean list-prefix test (JS `startsWith`). -/
def isPrefixList : List Char → List Char → Bool
  | [], _ => true
  | _ :: _, [] => false
  | p :: ps, c :: cs => p = c && isPrefixList ps cs

/-- Model of `parseMaturityMonths` on a string: normalise (lower-case,
collapse whitespace, trim), find the first amount+unit match and interpret
the unit (`mies`/`m.` months, `rok`/`lat` years). -/
def parseMaturityMonthsStr (s : String) : Option Nat :=
  let normalized := trimChars (collapseGo (s.data.map toLowerAscii) false)
  match matSearch normalized with
  | none => none
  | some (amount, unit) =>
    if amount = 0 then none
    else if isPrefixList "mies".data unit ∨ isPrefixList "m.".data unit then some amount
    else if isPrefixList "rok".data unit ∨ isPrefixList "lat".data unit then some (amount * 12)
    else none

/-- Model of `parseMaturityMonths` of the source (non-strings give `null`). -/
def parseMaturityMonths (v : CellValue) : Option Nat :=
  match v with
  | .str s => parseMaturityMonthsStr s
  | _ => none

/-! ## ISO date / timestamp parsing (`new Date(string)`) -/

/-- Exactly two decimal digits. -/
def parse2At : List Char → Option (Nat × List Char)
  | c1 :: c2 :: rest =>
    match digitVal c1, digitVal c2 with
    | some d1, some d2 => some (10 * d1 + d2, rest)
    | _, _ => none
  | _ => none

/-- Exactly four decimal digits. -/
def parse4At : List Char → Option (Nat × List Char)
  | c1 :: c2 :: c3 :: c4 :: rest =>
    match digitVal c1, digitVal c2, digitVal c3, digitVal c4 with
    | some d1, some d2, some d3, some d4 =>
      some (1000 * d1 + 100 * d2 + 10 * d3 + d4, rest)
    | _, _, _, _ => none
  | _ => none

/-- ISO calendar date `YYYY-MM-DD` with component validation, returning the
day number and the rest of the input. -/
def parseDateChars (cs : List Char) : Option (Int × List Char) :=
  match parse4At cs with
  | none => none
  | some (y, rest1) =>
    match rest1 with
    | '-' :: rest2 =>
      match parse2At rest2 with
      | none => none
      | some (m, rest3) =>
        match rest3 with
        | '-' :: rest4 =>
          match parse2At rest4 with
          | none => none
          | some (d, rest5) =>
            if 1 ≤ m ∧ m ≤ 12 ∧ 1 ≤ d ∧ d ≤ monthLen (isLeapN (y % 400)) m then
              some (daysFromCivil (y : Int) m d, rest5)
            else none
        | _ => none
    | _ => none

/-- Optional `.mmm` millisecond part. -/
def parseMillis : List Char → Option (Nat × List Char)
  | '.' :: c1 :: c2 :: c3 :: rest =>
    match digitVal c1, digitVal c2, digitVal c3 with
    | some d1, some d2, some d3 => some (100 * d1 + 10 * d2 + d3, rest)
    | _, _, _ => none
  | rest => some (0, rest)

/-- Time-of-day tail of an ISO timestamp (`THH:MM:SS(.mmm)?Z`, or nothing for
a date-only string), combined with the already-parsed day. -/
def parseTimeTail (day : Int) : List Char → Option Int
  | [] => some (day * 86400000)
  | 'T' :: r1 =>
    match parse2At r1 with
    | some (hh, ':' :: r2) =>
      match parse2At r2 with
      | some (mm, ':' :: r3) =>
        match parse2At r3 with
        | some (ss, r4) =>
          match parseMillis r4 with
          | some (ms, ['Z']) =>
            if hh < 24 ∧ mm < 60 ∧ ss < 60 then
              some (day * 86400000 + ((hh * 3600000 + mm * 60000 + ss * 1000 + ms : Nat) : Int))
            else none
          | _ => none
        | _ => none
      | _ => none
    | _ => none
  | _ => none

/-- Model of `new Date(string)` for the ES ISO formats the engine reads and
writes: `YYYY-MM-DD` (UTC midnight) and `YYYY-MM-DDTHH:MM:SS(.mmm)?Z`.
Returns the UTC instant in milliseconds (epoch consistent with
`daysFromCivil`); other strings are Invalid Date (`none`). -/
def parseTimestampChars (cs : List Char) : Option Int :=
  match parseDateChars cs with
  | none => none
  | some (day, rest) => parseTimeTail day rest

/-- Local calendar day of a UTC instant under a timezone offset in minutes
(the day number whose components `getFullYear`/`getMonth`/`getDate` report). -/
def localDayOfMs (ms tzOffsetMin : Int) : Int := (ms + tzOffsetMin * 60000) / 86400000

/-- Model of `toDate` of the source: date cells pass through (at local
midnight); numeric cells are Excel serial codes (`XLSX.SSF.parse_date_code`;
exact for serials ≥ 61, i.e. dates after 1900-03-01 — all real sale dates);
strings go through `new Date(string)`, modelled for ISO strings at UTC
offset 0 (the maturity texts such as `"10 lat"` are Invalid Date anyway). -/
def toDate (v : CellValue) : Option Int :=
  match v with
  | .date d => some d
  | .num q => if 0 ≤ q then some (daysFromCivil 1899 12 30 + ⌊q⌋) else none
  | .str s => (parseTimestampChars s.data).map (fun ms => localDayOfMs ms 0)
  | .nonfinite => none
  | .other => none

/-! ## Bond series and the schedule builder -/

/-- Parsed bond series row (`BondSeries` of the source). -/
structure BondSeries where
  seriesId : String
  bondType : String
  saleStart : Int
  saleEnd : Int
  emissionPrice : ℚ
  maturity : CellValue
  rateValues : List (Option ℚ)
  interestValues : List (Option ℚ)
deriving Repr, DecidableEq

/-- Model of `getBuyoutDate` of the source: an explicit date-typed maturity
wins; otherwise a textual term is added to the purchase date. -/
def getBuyoutDate (series : BondSeries) (purchaseDate : Int) : Option Int :=
  match toDate series.maturity with
  | some d => some d
  | none =>
    match parseMaturityMonths series.maturity with
    | none => none
    | some n => some (addMonths purchaseDate n)

/-- Model of `resolvePeriodMonths` of the source (`!termMonths` also catches
a zero term). -/
def resolvePeriodMonths (termMonths : Option Nat) (periodCount : Nat) : Option Nat :=
  match termMonths with
  | none => none
  | some t =>
    if t = 0 ∨ periodCount = 0 then none
    else if t % periodCount = 0 then some (t / periodCount) else none

/-- `termMonths` as computed in `buildScheduledValues`:
`parseMaturityMonths(maturity) ?? monthsBetween(purchaseDate, buyoutDate)`. -/
def termMonthsOf (s : BondSeries) (p b : Int) : Option Nat :=
  match parseMaturityMonths s.maturity with
  | some t => some t
  | none => monthsBetween p b

/-- An accrual period of the schedule. -/
structure Period where
  start : Int
  stop : Int
deriving Repr, DecidableEq

/-- Month-stepped period construction (`buildPeriods`, `periodMonths` truthy):
each period ends `pm` months after its start, except the last, whose end is
forced to `stop`. -/
def buildPeriodsMonthsGo : Nat → Int → Int → Nat → List Period
  | 0, _, _, _ => []
  | k + 1, cursor, stop, pm =>
    if k = 0 then [⟨cursor, stop⟩]
    else
      let next := addMonths cursor pm
      ⟨cursor, next⟩ :: buildPeriodsMonthsGo k next stop pm

/-- Day-split period construction (`buildPeriods`, no month length): spans of
`base (+1 while i < remainder)` days, the last end forced to `stop`. -/
def buildPeriodsDaysGo : Nat → Nat → Int → Int → Nat → Nat → List Period
  | 0, _, _, _, _, _ => []
  | k + 1, i, cursor, stop, base, rem =>
    if k = 0 then [⟨cursor, stop⟩]
    else
      let span := base + (if i < rem then 1 else 0)
      let next := addDays cursor span
      ⟨cursor, next⟩ :: buildPeriodsDaysGo k (i + 1) next stop base rem

/-- Day-split branch of `buildPeriods`. -/
def buildPeriodsDays (start stop : Int) (periodCount : Nat) : List Period :=
  let totalDays := daysBetween start stop
  buildPeriodsDaysGo periodCount 0 start stop (totalDays / periodCount) (totalDays % periodCount)

/-- Model of `buildPeriods` of the source (`if (periodMonths)` is JS
truthiness: `null` and `0` both select the day split). -/
def buildPeriods (start stop : Int) (periodCount : Nat) (periodMonths : Option Nat) : List Period :=
  if periodCount = 0 then []
  else
    match periodMonths with
    | some pm =>
      if pm ≠ 0 then buildPeriodsMonthsGo periodCount start stop pm
      else buildPeriodsDays start stop periodCount
    | none => buildPeriodsDays start stop periodCount

/-- A schedule point (`DailyValue` of the source). -/
structure DailyValue where
  date : Int
  price : ℚ
deriving Repr, DecidableEq

/-- Accrued amount of one period: the explicit interest value if numeric,
else `runningValue × rate × (periodDays/365)` if the rate is numeric. -/
def periodInterestAmount (rate interest : Option ℚ) (currentValue : ℚ) (periodDays : Nat) :
    Option ℚ :=
  match interest with
  | some i => some i
  | none =>
    match rate with
    | some r => some (currentValue * r * ((periodDays : ℚ) / 365))
    | none => none

/-- Per-period accumulation loop of the event-based `buildScheduledValues`:
pushes one point per period that has usable data, compounding on the rounded
running value. -/
def schedValuesGo (s : BondSeries) : List Period → Nat → ℚ → List DailyValue
  | [], _, _ => []
  | per :: rest, i, currentValue =>
    let rate := s.rateValues.getD i none
    let interest := s.interestValues.getD i none
    if rate = none ∧ interest = none then schedValuesGo s rest (i + 1) currentValue
    else
      match periodInterestAmount rate interest currentValue (daysBetween per.start per.stop) with
      | none => schedValuesGo s rest (i + 1) currentValue
      | some amount =>
        let nextValue := round2 (currentValue + amount)
        ⟨per.stop, nextValue⟩ :: schedValuesGo s rest (i + 1) nextValue

/-- Interest amount of the single OTS accrual period, with the source's
priority: purchase-day anchor + rate → day-count formula; else explicit
interest; else day-count formula; else `null`. -/
def otsInterestAmount (s : BondSeries) (purchaseDay : Option Nat) (p b : Int) : Option ℚ :=
  let rate := s.rateValues.getD 0 none
  let interest := s.interestValues.getD 0 none
  match purchaseDay, rate with
  | some _, some r => some (s.emissionPrice * r * ((daysBetween p b : ℚ) / 365))
  | _, _ =>
    match interest with
    | some i => some i
    | none =>
      match rate with
      | some r => some (s.emissionPrice * r * ((daysBetween p b : ℚ) / 365))
      | none => none

/-- Model of the event-based `buildScheduledValues` (first variant of the
source): one point per period boundary. -/
def buildScheduledValues (s : BondSeries) (purchaseDay : Option Nat) :
    Option (List DailyValue) :=
  let p := resolvePurchaseDate s.saleStart s.saleEnd purchaseDay
  match getBuyoutDate s p with
  | none => none
  | some b =>
    if s.bondType = "OTS" then
      match otsInterestAmount s purchaseDay p b with
      | none => none
      | some amount =>
        some [⟨p, round2 s.emissionPrice⟩, ⟨b, round2 (s.emissionPrice + amount)⟩]
    else
      let periodCount := max s.rateValues.length s.interestValues.length
      if periodCount = 0 then none
      else
        let periods := buildPeriods p b periodCount
          (resolvePeriodMonths (termMonthsOf s p b) periodCount)
        if periods = [] then none
        else some (⟨p, round2 s.emissionPrice⟩ :: schedValuesGo s periods 0 s.emissionPrice)

/-! ## Daily-interpolated schedule builder (second variant) -/

/-- Model of `Map.set` on the date-keyed JS `Map` of the daily variant:
replacing an existing key keeps its insertion position, a new key appends. -/
def mapSet (m : List (String × DailyValue)) (k : String) (v : DailyValue) :
    List (String × DailyValue) :=
  if m.any (fun kv => kv.1 == k) then
    m.map (fun kv => if kv.1 == k then (k, v) else kv)
  else m ++ [(k, v)]

/-- Model of `addValue` of the daily variant. -/
def addValue (m : List (String × DailyValue)) (date : Int) (price : ℚ) :
    List (String × DailyValue) :=
  mapSet m (formatDateISO date) ⟨date, price⟩

/-- Model of `addValueIfPast` of the daily variant. -/
def addValueIfPast (today : Int) (m : List (String × DailyValue)) (date : Int) (price : ℚ) :
    List (String × DailyValue) :=
  if date ≤ today then addValue m date price else m

/-- Daily interpolation loop of the OTS branch: one point per day offset,
linearly interpolating the single accrual. -/
def otsDailyGo (p : Int) (emission amount : ℚ) (totalDays : Nat) :
    Nat → Nat → List (String × DailyValue) → List (String × DailyValue)
  | 0, _, m => m
  | k + 1, off, m =>
    let date := addDays p (off : Int)
    let price := round2 (emission + amount * ((off : ℚ) / (totalDays : ℚ)))
    otsDailyGo p emission amount totalDays k (off + 1) (addValue m date price)

/-- Daily interpolation loop of one multi-period accrual period. -/
def periodDailyGo (start : Int) (currentValue amount : ℚ) (periodDays : Nat) :
    Nat → Nat → List (String × DailyValue) → List (String × DailyValue)
  | 0, _, m => m
  | k + 1, off, m =>
    let date := addDays start (off : Int)
    let price := round2 (currentValue + amount * ((off : ℚ) / (periodDays : ℚ)))
    periodDailyGo start currentValue amount periodDays k (off + 1) (addValue m date price)

/-- Per-period loop of the daily variant: interpolate each period up to
`min(today, period end)` and record the boundary value when it is past. -/
def schedDailyGo (s : BondSeries) (today : Int) :
    List Period → Nat → ℚ → List (String × DailyValue) → List (String × DailyValue)
  | [], _, _, m => m
  | per :: rest, i, currentValue, m =>
    let rate := s.rateValues.getD i none
    let interest := s.interestValues.getD i none
    if rate = none ∧ interest = none then schedDailyGo s today rest (i + 1) currentValue m
    else
      match periodInterestAmount rate interest currentValue (daysBetween per.start per.stop) with
      | none => schedDailyGo s today rest (i + 1) currentValue m
      | some amount =>
        let periodDays := daysBetween per.start per.stop
        let nextValue := round2 (currentValue + amount)
        let dailyEnd := if today < per.stop then today else per.stop
        let m1 :=
          if per.start < dailyEnd ∧ 0 < periodDays then
            periodDailyGo per.start currentValue amount periodDays
              (daysBetween per.start dailyEnd) 1 m
          else m
        let m2 := addValueIfPast today m1 per.stop nextValue
        schedDailyGo s today rest (i + 1) nextValue m2

/-- Ascending insertion by date (models `.sort((l, r) => l.date - r.date)`;
all recorded dates are distinct, so stability is irrelevant). -/
def insertByDate (v : DailyValue) : List DailyValue → List DailyValue
  | [] => [v]
  | w :: ws => if v.date ≤ w.date then v :: w :: ws else w :: insertByDate v ws

/-- Sort a value list ascending by date. -/
def sortByDate : List DailyValue → List DailyValue
  | [] => []
  | v :: vs => insertByDate v (sortByDate vs)

/-- Model of the daily-interpolated `buildScheduledValues` (second variant of
the source): one point per calendar day up to `today`, deduplicated by ISO
date key and sorted ascending.  `today` (the source's `toLocalDate(new
Date())`) is an explicit parameter. -/
def buildScheduledValuesDaily (s : BondSeries) (purchaseDay : Option Nat) (today : Int) :
    Option (List DailyValue) :=
  let p := resolvePurchaseDate s.saleStart s.saleEnd purchaseDay
  match getBuyoutDate s p with
  | none => none
  | some b =>
    if s.bondType = "OTS" then
      match otsInterestAmount s purchaseDay p b with
      | none => none
      | some amount =>
        let m0 := addValueIfPast today [] p (round2 s.emissionPrice)
        let totalDays := daysBetween p b
        let m1 :=
          if 0 < totalDays then
            let dailyEnd := if today < b then today else b
            otsDailyGo p s.emissionPrice amount totalDays (daysBetween p dailyEnd) 1 m0
          else m0
        some (sortByDate (m1.map (·.2)))
    else
      let periodCount := max s.rateValues.length s.interestValues.length
      if periodCount = 0 then none
      else
        let periods := buildPeriods p b periodCount
          (resolvePeriodMonths (termMonthsOf s p b) periodCount)
        if periods = [] then none
        else
          let m0 := addValueIfPast today [] p (round2 s.emissionPrice)
          some (sortByDate ((schedDailyGo s today periods 0 s.emissionPrice m0).map (·.2)))

/-! ## Quotes and the per-symbol diff -/

/-- Model of `normalizeSymbol` (`trim().toUpperCase()`; symbols are ASCII). -/
def normalizeSymbol (s : String) : String :=
  String.mk ((trimChars s.data).map Char.toUpper)

/-- A quote record as read from / written to the host's quote store.  `openPrice`
is the source's `open` field (a Lean keyword).  `adjclose` and `close` are
optional because `priceChanged` guards them with `typeof`; missing `id` /
`timestamp` model absent or empty host data (JS falsy checks). -/
structure Quote where
  id : Option String
  createdAt : Option String
  dataSource : Option String
  timestamp : Option String
  symbol : String
  openPrice : ℚ
  high : ℚ
  low : ℚ
  close : Option ℚ
  adjclose : Option ℚ
  volume : ℚ
  currency : String
deriving Repr, DecidableEq

/-- Model of `buildQuote` of the source. -/
def buildQuote (symbol : String) (quoteDate : Int) (price : ℚ) : Quote :=
  let dateISO := formatDateISO quoteDate
  let timestamp := dateISO ++ "T00:00:00.000Z"
  let datePart := String.mk (dateISO.data.filter (fun c => c ≠ '-'))
  let normalizedSymbol := normalizeSymbol symbol
  { id := some (datePart ++ "_" ++ normalizedSymbol)
    createdAt := some timestamp
    dataSource := some "MANUAL"
    timestamp := some timestamp
    symbol := normalizedSymbol
    openPrice := price
    high := price
    low := price
    close := some price
    adjclose := some price
    volume := 0
    currency := "PLN" }

/-- Model of `buildQuotePayload`: a fresh quote, keeping the existing record's
`id` / `createdAt` / `dataSource` when present (`??`). -/
def buildQuotePayload (symbol : String) (quoteDate : Int) (price : ℚ)
    (existing : Option Quote) : Quote :=
  let base := buildQuote symbol quoteDate price
  match existing with
  | none => base
  | some ex =>
    { base with
      id := match ex.id with | some i => some i | none => base.id
      createdAt := match ex.createdAt with | some c => some c | none => base.createdAt
      dataSource := match ex.dataSource with | some d => some d | none => base.dataSource }

/-- Recorded price of an existing quote: `adjclose`, else `close`, else
`open`. -/
def recordedPrice (q : Quote) : ℚ :=
  match q.adjclose with
  | some a => a
  | none =>
    match q.close with
    | some c => c
    | none => q.openPrice

/-- Model of `priceChanged`: absolute difference beyond the `0.004`
tolerance. -/
def priceChanged (existing : Quote) (nextPrice : ℚ) : Bool :=
  decide (|recordedPrice existing - nextPrice| > 4 / 1000)

/-- Anchored match of the regex `(\d{4})-(\d{2})-(\d{2})`, returning the
matched text. -/
def isoKeyAt (cs : List Char) : Option (List Char) :=
  match cs with
  | a :: b :: c :: d :: '-' :: e :: f :: '-' :: g :: h :: _ =>
    if [a, b, c, d, e, f, g, h].all (fun x => (digitVal x).isSome) then
      some [a, b, c, d, '-', e, f, '-', g, h]
    else none
  | _ => none

/-- First match of `(\d{4})-(\d{2})-(\d{2})` anywhere in the string. -/
def isoKeySearch : List Char → Option (List Char)
  | [] => none
  | c :: cs =>
    match isoKeyAt (c :: cs) with
    | some r => some r
    | none => isoKeySearch cs

/-- Anchored match of `(\d{8})`. -/
def digits8At (cs : List Char) : Option (List Char) :=
  let p := cs.take 8
  if p.length = 8 ∧ p.all (fun x => (digitVal x).isSome) then some p else none

/-- First run of 8 consecutive digits anywhere in the string. -/
def digits8Search : List Char → Option (List Char)
  | [] => none
  | c :: cs =>
    match digits8At (c :: cs) with
    | some r => some r
    | none => digits8Search cs

/-- Fallback of `extractQuoteDateKey`: date digits embedded in the quote id. -/
def extractKeyFromId (q : Quote) : Option String :=
  let idStr := q.id.getD ""
  match isoKeySearch idStr.data with
  | some m => some (String.mk m)
  | none =>
    match digits8Search idStr.data with
    | some ds =>
      some (String.mk (ds.take 4 ++ '-' :: ((ds.drop 4).take 2 ++ '-' :: (ds.drop 6).take 2)))
    | none => none

/-- Model of `extractQuoteDateKey`: derive the ISO date of a quote from its
timestamp (re-reading it through local-time components, hence the timezone
offset parameter), falling back to digits embedded in the id. -/
def extractQuoteDateKey (tzOffsetMin : Int) (q : Quote) : Option String :=
  match q.timestamp with
  | some ts =>
    if ts ≠ "" then
      match parseTimestampChars ts.data with
      | some ms => some (formatDateISO (localDayOfMs ms tzOffsetMin))
      | none => extractKeyFromId q
    else extractKeyFromId q
  | none => extractKeyFromId q

/-- All date keys of a quote history (`existingDates`). -/
def quoteKeys (tzOffsetMin : Int) (history : List Quote) : List String :=
  history.filterMap (extractQuoteDateKey tzOffsetMin)

/-- First quote of the history with the given date key (`existingByDate`
keeps only the first quote per key). -/
def firstQuoteAt (tzOffsetMin : Int) (history : List Quote) (k : String) : Option Quote :=
  history.find? (fun q => extractQuoteDateKey tzOffsetMin q == some k)

/-- Per-point classification of the diff in `refreshHoldings`: a recorded
date is an update iff the price moved beyond tolerance, an unrecorded date is
an addition. -/
def classifyPoint (tzOffsetMin : Int) (history : List Quote) (symbol : String)
    (v : DailyValue) : Option Quote :=
  let dateKey := formatDateISO v.date
  match firstQuoteAt tzOffsetMin history dateKey with
  | some ex =>
    if priceChanged ex v.price then some (buildQuotePayload symbol v.date v.price (some ex))
    else none
  | none =>
    if (quoteKeys tzOffsetMin history).contains dateKey then none
    else some (buildQuotePayload symbol v.date v.price none)

/-- The `quotesToAdd` list computed by `refreshHoldings` for one symbol. -/
def computeQuotesToAdd (tzOffsetMin : Int) (history : List Quote) (symbol : String)
    (scheduledValues : List DailyValue) : List Quote :=
  scheduledValues.filterMap (classifyPoint tzOffsetMin history symbol)

/-! ## The sync engine (`refreshHoldings`) -/

/-- Uppercase ASCII letter test. -/
def isUpperAlpha (c : Char) : Bool := 'A' ≤ c ∧ c ≤ 'Z'

/-- Parsed bond reference (`BondMatch` of the source). -/
structure BondMatch where
  seriesId : String
  bondType : String
  purchaseDay : Option Nat
deriving Repr, DecidableEq

/-- Model of `parseBondSymbol`: normalised symbol against
`^([A-Z]{3}\d{4})(?:\.(\d{1,2}))?$`. -/
def parseBondSymbol (symbol : String) : Option BondMatch :=
  match (normalizeSymbol symbol).data with
  | l1 :: l2 :: l3 :: d1 :: d2 :: d3 :: d4 :: rest =>
    if isUpperAlpha l1 && isUpperAlpha l2 && isUpperAlpha l3
        && (digitVal d1).isSome && (digitVal d2).isSome
        && (digitVal d3).isSome && (digitVal d4).isSome then
      let seriesId := String.mk [l1, l2, l3, d1, d2, d3, d4]
      let bondType := String.mk [l1, l2, l3]
      match rest with
      | [] => some ⟨seriesId, bondType, none⟩
      | '.' :: [e1] => (digitVal e1).map (fun v => ⟨seriesId, bondType, some v⟩)
      | '.' :: [e1, e2] =>
        match digitVal e1, digitVal e2 with
        | some v1, some v2 => some ⟨seriesId, bondType, some (10 * v1 + v2)⟩
        | _, _ => none
      | _ => none
    else none
  | _ => none

/-- Engine state: the sticky `processedSymbols` / `skippedSymbols` sets and
the host's per-symbol quote store.  The `inFlightSymbols` set is empty
between passes (each pass removes its entry in `finally`), so it does not
appear in the sequential state. -/
structure EngineState where
  processed : List String
  skipped : List String
  store : List (String × List Quote)

/-- History recorded for a symbol (`quotes.getHistory`). -/
def storeGet (store : List (String × List Quote)) (symbol : String) : List Quote :=
  match store.find? (fun kv => kv.1 == symbol) with
  | some kv => kv.2
  | none => []

/-- Replace (or create) a symbol's history. -/
def storeSet (store : List (String × List Quote)) (symbol : String) (h : List Quote) :
    List (String × List Quote) :=
  if store.any (fun kv => kv.1 == symbol) then
    store.map (fun kv => if kv.1 == symbol then (symbol, h) else kv)
  else store ++ [(symbol, h)]

/-- Host upsert of one quote (`quotes.update`): replace the record with the
same id, else append. -/
def upsertQuote (history : List Quote) (q : Quote) : List Quote :=
  if history.any (fun h => h.id == q.id) then
    history.map (fun h => if h.id == q.id then q else h)
  else history ++ [q]

/-- Batched writes of a pass (`updateQuotesInBatches`) as their effect on one
symbol's history; batching only groups the same sequence of upserts. -/
def applyUpserts (history : List Quote) (qs : List Quote) : List Quote :=
  qs.foldl upsertQuote history

/-- Static environment of a pass: the held symbols, the (cached, immutable)
series catalog, and the timezone offset used by date-key extraction. -/
structure EngineEnv where
  symbols : List String
  lookupSeries : String → String → Option BondSeries
  tzOffsetMin : Int

/-- One symbol of the `refreshHoldings` loop (event-based variant): sticky
skips, bond parse, series lookup, schedule, diff, writes, mark processed.
Returns the new state and the quotes written.  Metadata enrichment touches
only the asset profile, never quotes, and is omitted. -/
def processSymbol (env : EngineEnv) (st : EngineState) (symbol : String) :
    EngineState × List Quote :=
  if st.processed.contains symbol ∨ st.skipped.contains symbol then (st, [])
  else
    match parseBondSymbol symbol with
    | none => (st, [])
    | some m =>
      match env.lookupSeries m.seriesId m.bondType with
      | none => ({ st with skipped := symbol :: st.skipped }, [])
      | some series =>
        match buildScheduledValues series m.purchaseDay with
        | none => ({ st with skipped := symbol :: st.skipped }, [])
        | some scheduledValues =>
          if scheduledValues = [] then ({ st with skipped := symbol :: st.skipped }, [])
          else
            let history := storeGet st.store symbol
            let quotesToAdd := computeQuotesToAdd env.tzOffsetMin history symbol scheduledValues
            ({ processed := symbol :: st.processed
               skipped := st.skipped
               store := storeSet st.store symbol (applyUpserts history quotesToAdd) },
             quotesToAdd)

/-- One full pass of `refreshHoldings` (while no failure interrupts it):
fold over the held symbols, collecting all quote writes. -/
def runRefresh (env : EngineEnv) (st : EngineState) : EngineState × List Quote :=
  env.symbols.foldl
    (fun acc symbol =>
      let r := processSymbol env acc.1 symbol
      (r.1, acc.2 ++ r.2))
    (st, [])

/-! ## The workbook cache (`getWorkbook`) as a transition system

The module variable `workbookPromise` memoizes a shared fetch.  We model the
event-loop behaviour of `getWorkbook` as a labelled transition system:
`call c` is the synchronous part of an invocation by caller `c` (check the
cache, possibly start a fetch), `settle id ok` is the network outcome of
fetch `id`, and `resume c` is the continuation of caller `c` after its
awaited promise settled.  Only the invocation that started a fetch runs the
source's `try { return await workbookPromise } catch { workbookPromise =
null; throw }`, so only its continuation clears the cache on rejection
before rethrowing; an invocation that finds the promise cached takes the
early `return workbookPromise` and never touches the module variable — its
caller just receives the settled workbook or the error. -/

/-- Status of one started fetch. -/
inductive FetchStatus where
  | pending
  | resolved
  | rejected
deriving Repr, DecidableEq

/-- Phase of one potential caller of `getWorkbook`: an initiator started the
fetch and owns the cache-clearing `catch`; a sharer was handed the cached
promise and has no `catch`. -/
inductive CallerPhase where
  | idle
  | awaitingInit (id : Nat)
  | awaitingShare (id : Nat)
  | doneOk (id : Nat)
  | doneErr (id : Nat)
deriving Repr, DecidableEq

/-- State of the memoized workbook fetch: the cached promise (if any), the
status of every fetch started so far (`fetches.length` counts network
requests), and the caller phases. -/
structure CacheState where
  cache : Option Nat
  fetches : List FetchStatus
  callers : List CallerPhase
deriving Repr, DecidableEq

/-- One event of the `getWorkbook` transition system. -/
inductive WbStep where
  | call (c : Nat)
  | settle (id : Nat) (ok : Bool)
  | resume (c : Nat)
deriving Repr, DecidableEq

/-- Transition function of the `getWorkbook` system (no-op on steps that are
not enabled).  A call with an empty cache starts a fresh fetch and makes the
caller its initiator; a call with a cached fetch shares it.  On rejection
only an initiator's continuation clears the cache; a sharer's continuation
just propagates the error. -/
def execStep (s : CacheState) : WbStep → CacheState
  | .call c =>
    if s.callers.get? c = some .idle then
      match s.cache with
      | some id => { s with callers := s.callers.set c (.awaitingShare id) }
      | none =>
        let id := s.fetches.length
        { cache := some id
          fetches := s.fetches ++ [.pending]
          callers := s.callers.set c (.awaitingInit id) }
    else s
  | .settle id ok =>
    if s.fetches.get? id = some .pending then
      { s with fetches := s.fetches.set id (if ok then .resolved else .rejected) }
    else s
  | .resume c =>
    match s.callers.get? c with
    | some (.awaitingInit id) =>
      match s.fetches.get? id with
      | some .resolved => { s with callers := s.callers.set c (.doneOk id) }
      | some .rejected =>
        { cache := none
          fetches := s.fetches
          callers := s.callers.set c (.doneErr id) }
      | _ => s
    | some (.awaitingShare id) =>
      match s.fetches.get? id with
      | some .resolved => { s with callers := s.callers.set c (.doneOk id) }
      | some .rejected => { s with callers := s.callers.set c (.doneErr id) }
      | _ => s
    | _ => s

/-- Run a whole event trace. -/
def execTrace (s : CacheState) (tr : List WbStep) : CacheState := tr.foldl execStep s

/-- Initial state with `n` potential callers and an empty cache. -/
def wbInit (n : Nat) : CacheState := ⟨none, [], List.replicate n .idle⟩

/-- Number of fetches currently in flight. -/
def pendingCount (s : CacheState) : Nat :=
  (s.fetches.filter (fun st => st == .pending)).length

/-- Invariant of every execution: each in-flight fetch is the cached one, an
initiator still awaiting its fetch sees it in the cache, each fetch has at
most one initiator, and the cache points into the fetch table. -/
def WbInv (s : CacheState) : Prop :=
  (∀ id, s.fetches.get? id = some .pending → s.cache = some id) ∧
  (∀ c id, s.callers.get? c = some (.awaitingInit id) → s.cache = some id) ∧
  (∀ c1 c2 id, s.callers.get? c1 = some (.awaitingInit id) →
    s.callers.get? c2 = some (.awaitingInit id) → c1 = c2) ∧
  (∀ id, s.cache = some id → id < s.fetches.length)

/-! ## Structural predicates -/

/-- The period list is contiguous from a given start date. -/
def Contiguous : Int → List Period → Prop
  | _, [] => True
  | c, per :: rest => per.start = c ∧ Contiguous per.stop rest

/-- Day span of period `i` in the day-split (`base`, plus one while the
remainder lasts). -/
def daySpan (base rem i : Nat) : Nat := base + (if i < rem then 1 else 0)

/-- Sum of `daySpan` over the index range `[i, i+k)`. -/
def spanSum (base rem i k : Nat) : Nat :=
  match k with
  | 0 => 0
  | k + 1 => daySpan base rem i + spanSum base rem (i + 1) k

/-- Purchase date, buyout date and period-boundary dates used by
`buildScheduledValues` for a series (an OTS bond has the single boundary at
its buyout date). -/
def scheduleBounds (s : BondSeries) (purchaseDay : Option Nat) : Option (Int × Int × List Int) :=
  let p := resolvePurchaseDate s.saleStart s.saleEnd purchaseDay
  match getBuyoutDate s p with
  | none => none
  | some b =>
    if s.bondType = "OTS" then some (p, b, [b])
    else
      let periodCount := max s.rateValues.length s.interestValues.length
      some (p, b, (buildPeriods p b periodCount
        (resolvePeriodMonths (termMonthsOf s p b) periodCount)).map (fun per => per.stop))

/-- Well-formedness of the date-keyed map of the daily variant: every key is
the ISO string of its value's date, and the keys are pairwise distinct. -/
def GoodMap (m : List (String × DailyValue)) : Prop :=
  (∀ kv ∈ m, kv.1 = formatDateISO kv.2.date) ∧ (m.map (fun kv => kv.1)).Nodup

/-- A symbol the engine will no longer touch: already processed, already
skipped, or unparseable. -/
def Settled (st : EngineState) (sym : String) : Prop :=
  sym ∈ st.processed ∨ sym ∈ st.skipped ∨ parseBondSymbol sym = none

/-! ## Concrete inputs for scenarios, witnesses and counterexamples -/

/-- OTS series of the spec's scenario: emission 100, rate 3 %, one-year term
(365 days from 2024-03-01), purchase-day anchor available. -/
def exOts : BondSeries :=
  { seriesId := "OTS0325", bondType := "OTS", saleStart := daysFromCivil 2024 3 1,
    saleEnd := daysFromCivil 2024 3 31, emissionPrice := 100, maturity := .str "1 rok",
    rateValues := [some (3/100)], interestValues := [] }

/-- Two-period series of the spec's scenario: rates `[0.02, 0.025]`, 12-month
term, sale window starting 2024-02-01. -/
def exDos : BondSeries :=
  { seriesId := "DOS0226", bondType := "DOS", saleStart := daysFromCivil 2024 2 1,
    saleEnd := daysFromCivil 2024 2 29, emissionPrice := 100, maturity := .str "12 mies.",
    rateValues := [some (2/100), some (25/1000)], interestValues := [] }

/-- The same two-period series sold on 2024-08-31: the first 6-month step
lands on 2025-02-28 (day clamping), so the second period is not a 6-month
span. -/
def exDos31 : BondSeries :=
  { seriesId := "DOS0226", bondType := "DOS", saleStart := daysFromCivil 2024 8 31,
    saleEnd := daysFromCivil 2024 8 31, emissionPrice := 100, maturity := .str "12 mies.",
    rateValues := [some (2/100), some (25/1000)], interestValues := [] }

/-- A degenerate (but parseable) series row whose explicit maturity date
equals the sale-window start: its single period is empty and the event-based
schedule repeats the purchase date. -/
def exDeg : BondSeries :=
  { seriesId := "DOS0101", bondType := "DOS", saleStart := daysFromCivil 2024 1 2,
    saleEnd := daysFromCivil 2024 1 2, emissionPrice := 100,
    maturity := .date (daysFromCivil 2024 1 2),
    rateValues := [some (2/100)], interestValues := [] }

/-- A series with a one-day life and two explicit interest values: its second
(empty) period duplicates the first boundary date with a different price. -/
def exDup : BondSeries :=
  { seriesId := "DOS0101", bondType := "DOS", saleStart := daysFromCivil 2024 1 2,
    saleEnd := daysFromCivil 2024 1 2, emissionPrice := 100,
    maturity := .date (daysFromCivil 2024 1 3),
    rateValues := [], interestValues := [some 1, some 2] }

/-- A recorded quote at 2024-01-19 with price 100.00. -/
def exQuote100 : Quote := buildQuote "ROR0127" (daysFromCivil 2024 1 19) 100

/-- Engine environment holding only the duplicate-date series. -/
def exEnvDup : EngineEnv :=
  { symbols := ["DOS0101"]
    lookupSeries := fun sid bt => if sid = "DOS0101" ∧ bt = "DOS" then some exDup else none
    tzOffsetMin := 0 }

/-- Engine environment holding the OTS scenario series (distinct schedule
dates). -/
def exEnvOts : EngineEnv :=
  { symbols := ["OTS0325.1"]
    lookupSeries := fun sid bt => if sid = "OTS0325" ∧ bt = "OTS" then some exOts else none
    tzOffsetMin := 0 }

/-- Empty engine state. -/
def exState0 : EngineState := ⟨[], [], []⟩

/-! ## Theorems: purchase date resolution -/

theorem resolveGo_spec : ∀ (f : Nat) (cursor stop : Int) (pd : Nat),
    stop < cursor + f →
    ((∃ z, cursor ≤ z ∧ z ≤ stop ∧ dayOfMonth z = pd) →
      ∃ w, resolveGo f cursor stop pd = some w ∧ cursor ≤ w ∧ w ≤ stop ∧
        dayOfMonth w = pd ∧ ∀ z, cursor ≤ z → z < w → dayOfMonth z ≠ pd) ∧
    ((∀ z, cursor ≤ z → z ≤ stop → dayOfMonth z ≠ pd) →
      resolveGo f cursor stop pd = none) := by
  intro f
  induction f with
  | zero =>
    intro cursor stop pd hf
    constructor
    · rintro ⟨z, hz1, hz2, _⟩
      exact absurd rfl (by omega : z ≠ z)
    · intro _
      rfl
  | succ f ih =>
    intro cursor stop pd hf
    by_cases hcs : cursor ≤ stop
    · by_cases hpd : dayOfMonth cursor = pd
      · constructor
        · intro _
          refine ⟨cursor, ?_, le_refl cursor, hcs, hpd, ?_⟩
          · simp [resolveGo, hcs, hpd]
          · intro z h1 h2
            exact absurd rfl (by omega : z ≠ z)
        · intro hall
          exact absurd hpd (hall cursor (le_refl _) hcs)
      · have hstep : resolveGo (f + 1) cursor stop pd = resolveGo f (cursor + 1) stop pd := by
          simp [resolveGo, hcs, hpd]
        have hih := ih (cursor + 1) stop pd (by omega)
        rw [hstep]
        constructor
        · rintro ⟨z, hz1, hz2, hz3⟩
          have hz1' : cursor + 1 ≤ z := by
            rcases (by omega : z = cursor ∨ cursor + 1 ≤ z) with heq | hlt
            · rw [heq] at hz3
              exact absurd hz3 hpd
            · exact hlt
          obtain ⟨w, hw1, hw2, hw3, hw4, hw5⟩ := hih.1 ⟨z, hz1', hz2, hz3⟩
          refine ⟨w, hw1, by omega, hw3, hw4, ?_⟩
          intro u hu1 hu2
          rcases (by omega : u = cursor ∨ cursor + 1 ≤ u) with heq | hlt
          · rw [heq]
            exact hpd
          · exact hw5 u hlt hu2
        · intro hall
          exact hih.2 (fun z h1 h2 => hall z (by omega) h2)
    · constructor
      · rintro ⟨z, hz1, hz2, _⟩
        exact absurd rfl (by omega : z ≠ z)
      · intro _
        simp [resolveGo, hcs]

/-- C3: For every series and requested purchase day D with 1 ≤ D ≤ 31,
`resolvePurchaseDate` returns the first calendar date in
[saleWindowStart, saleWindowEnd] (inclusive) whose day-of-month equals D,
and returns saleWindowStart when no day in the window matches or when no
purchase day is given.  In particular, for saleWindowStart = 2024-01-02,
saleWindowEnd = 2024-01-31 and symbol `ROR0127.19` the purchase date is
2024-01-19. -/
theorem c3_purchase_date_resolution (s e : Int) (D : Nat) (h1 : 1 ≤ D) (h2 : D ≤ 31) :
    ((∃ z, s ≤ z ∧ z ≤ e ∧ dayOfMonth z = D) →
      s ≤ resolvePurchaseDate s e (some D) ∧ resolvePurchaseDate s e (some D) ≤ e ∧
      dayOfMonth (resolvePurchaseDate s e (some D)) = D ∧
      ∀ z, s ≤ z → z < resolvePurchaseDate s e (some D) → dayOfMonth z ≠ D) ∧
    ((∀ z, s ≤ z → z ≤ e → dayOfMonth z ≠ D) → resolvePurchaseDate s e (some D) = s) ∧
    resolvePurchaseDate s e none = s ∧
    (parseBondSymbol "ROR0127.19" = some ⟨"ROR0127", "ROR", some 19⟩ ∧
      resolvePurchaseDate (daysFromCivil 2024 1 2) (daysFromCivil 2024 1 31)
        ((parseBondSymbol "ROR0127.19").bind (fun m => m.purchaseDay))
        = daysFromCivil 2024 1 19) := by
  have hng : ¬ (D < 1 ∨ 31 < D) := by omega
  have hdef : resolvePurchaseDate s e (some D)
      = match resolveGo ((e - s).toNat + 1) s e D with
        | some d => d
        | none => s := by
    simp only [resolvePurchaseDate]
    rw [if_neg hng]
  have hspec := resolveGo_spec ((e - s).toNat + 1) s e D (by omega)
  refine ⟨?_, ?_, rfl, by decide, by decide⟩
  · intro hex
    obtain ⟨w, hw1, hw2, hw3, hw4, hw5⟩ := hspec.1 hex
    rw [hdef, hw1]
    exact ⟨hw2, hw3, hw4, hw5⟩
  · intro hall
    rw [hdef, hspec.2 hall]

/-- Witness for C3 at the spec's scenario. -/
theorem c3_purchase_date_resolution_witness :
    resolvePurchaseDate (daysFromCivil 2024 1 2) (daysFromCivil 2024 1 31)
        ((parseBondSymbol "ROR0127.19").bind (fun m => m.purchaseDay))
      = daysFromCivil 2024 1 19 :=
  (c3_purchase_date_resolution 0 0 19 (by decide) (by decide)).2.2.2.2

/-! ## Theorems: OTS interest selection -/

/-- C1: For every OTS bond series (bondType = "OTS") whose buyout date is
resolvable, `buildScheduledValues` picks the interest amount as
`emissionPrice × rateValues[0] × (days/365)` (days = whole days from purchase
to buyout) whenever a purchase-day anchor was supplied and `rateValues[0]` is
a number; otherwise it uses the explicit `interestValues[0]` when that is a
number; otherwise it falls back to the rate formula when `rateValues[0]` is a
number; and it returns null when neither value is a number.  The spec's
scenario instance (emission 100, rate 0.03, anchored, 365-day term, buyout
price 103.00) is the witness of this theorem. -/
theorem c1_ots_interest_selection (s : BondSeries) (purchaseDay : Option Nat)
    (hots : s.bondType = "OTS") (b : Int)
    (hb : getBuyoutDate s (resolvePurchaseDate s.saleStart s.saleEnd purchaseDay) = some b) :
    (purchaseDay ≠ none → ∀ r, s.rateValues.getD 0 none = some r →
      buildScheduledValues s purchaseDay
        = some [⟨resolvePurchaseDate s.saleStart s.saleEnd purchaseDay, round2 s.emissionPrice⟩,
            ⟨b, round2 (s.emissionPrice + s.emissionPrice * r *
              ((daysBetween (resolvePurchaseDate s.saleStart s.saleEnd purchaseDay) b : ℚ)
                / 365))⟩]) ∧
    ((purchaseDay = none ∨ s.rateValues.getD 0 none = none) →
      ∀ i, s.interestValues.getD 0 none = some i →
      buildScheduledValues s purchaseDay
        = some [⟨resolvePurchaseDate s.saleStart s.saleEnd purchaseDay, round2 s.emissionPrice⟩,
            ⟨b, round2 (s.emissionPrice + i)⟩]) ∧
    (purchaseDay = none → s.interestValues.getD 0 none = none →
      ∀ r, s.rateValues.getD 0 none = some r →
      buildScheduledValues s purchaseDay
        = some [⟨resolvePurchaseDate s.saleStart s.saleEnd purchaseDay, round2 s.emissionPrice⟩,
            ⟨b, round2 (s.emissionPrice + s.emissionPrice * r *
              ((daysBetween (resolvePurchaseDate s.saleStart s.saleEnd purchaseDay) b : ℚ)
                / 365))⟩]) ∧
    (s.rateValues.getD 0 none = none → s.interestValues.getD 0 none = none →
      buildScheduledValues s purchaseDay = none) := by
  have hres : buildScheduledValues s purchaseDay
      = (match otsInterestAmount s purchaseDay
            (resolvePurchaseDate s.saleStart s.saleEnd purchaseDay) b with
         | none => none
         | some amount =>
           some [⟨resolvePurchaseDate s.saleStart s.saleEnd purchaseDay,
               round2 s.emissionPrice⟩,
             ⟨b, round2 (s.emissionPrice + amount)⟩]) := by
    simp only [buildScheduledValues, hb, hots, if_pos]
  refine ⟨?_, ?_, ?_, ?_⟩
  · intro hpd r hr
    cases purchaseDay with
    | none => exact absurd rfl hpd
    | some pd =>
      rw [hres]
      simp only [otsInterestAmount, hr]
  · intro hcase i hi
    rw [hres]
    rcases hcase with hpd | hr
    · subst hpd
      simp only [otsInterestAmount, hi]
    · simp only [otsInterestAmount, hr, hi]
  · intro hpd hi r hr
    subst hpd
    rw [hres]
    simp only [otsInterestAmount, hr, hi]
  · intro hr hi
    rw [hres]
    simp only [otsInterestAmount, hr, hi]

/-- Witness for C1: the spec's scenario.  Emission 100, rate 0.03, purchase
day anchor `1`, term "1 rok" from 2024-03-01 (365 days) ⇒ the buyout-date
price is 103.00. -/
theorem c1_ots_interest_selection_witness :
    buildScheduledValues exOts (some 1)
      = some [⟨daysFromCivil 2024 3 1, 100⟩, ⟨daysFromCivil 2025 3 1, 103⟩] := by
  have h := (c1_ots_interest_selection exOts (some 1) rfl (daysFromCivil 2025 3 1)
    (by decide)).1 (by simp) (3/100) rfl
  rw [h]
  have hp : resolvePurchaseDate exOts.saleStart exOts.saleEnd (some 1)
      = daysFromCivil 2024 3 1 := by decide
  have hd : daysBetween (resolvePurchaseDate exOts.saleStart exOts.saleEnd (some 1))
      (daysFromCivil 2025 3 1) = 365 := by decide
  rw [hd, hp]
  simp only [exOts]
  norm_num [round2]

/-! ## Theorems: numeric cell extraction -/

/-- Counterexample to C9 as stated: the empty string is not a numeric cell,
yet it is extracted as `0`, not as `null` (JS `Number('') = 0`). -/
theorem c9_non_numeric_cells_counterexample :
    toNumber (CellValue.str "") = some 0 ∧
    extractNumberRange [CellValue.str ""] 0 1 = [some 0] ∧
    toNumber (CellValue.str "") ≠ none := by
  refine ⟨rfl, rfl, ?_⟩
  intro h
  exact Option.noConfusion (rfl.trans h : some (0 : ℚ) = none)

/-- C9 (amended): every cell of the extracted span is `toNumber` of the
positional cell; a cell that is not a finite number and not a string is
extracted as `null`; a string cell is `null` exactly when the JS `Number`
coercion of its normalised text is NaN — in particular the empty and the
whitespace-only string are extracted as `0`, not `null` (they coerce to 0),
which is the one family of non-numeric cells that does not stay distinct
from a 0% rate. -/
theorem c9_non_numeric_cells_amended (row : List CellValue) (startIdx count i : Nat)
    (hi : i < count) :
    (extractNumberRange row startIdx count).get? i
      = some (toNumber (row.getD (startIdx + i) CellValue.other)) ∧
    (∀ q, toNumber (.num q) = some q) ∧
    toNumber .nonfinite = none ∧
    (∀ d, toNumber (.date d) = none) ∧
    toNumber .other = none ∧
    (∀ s : String,
      toNumber (.str s) = jsStrNumber (replaceFirstComma (trimChars s.data))) ∧
    (∀ s : String, trimChars s.data = [] → toNumber (.str s) = some 0) := by
  refine ⟨?_, fun q => rfl, rfl, fun d => rfl, rfl, fun s => rfl, ?_⟩
  · unfold extractNumberRange
    rw [List.get?_map, List.get?_range hi]
    rfl
  · intro s hs
    show jsStrNumber (replaceFirstComma (trimChars s.data)) = some 0
    rw [hs]
    rfl

/-- Witness for C9 (amended): a non-numeric string is extracted as `null`, a
whitespace-only string as `0`. -/
theorem c9_non_numeric_cells_amended_witness :
    (extractNumberRange [CellValue.str "abc"] 0 1).get? 0 = some none ∧
    toNumber (CellValue.str " ") = some 0 :=
  ⟨((c9_non_numeric_cells_amended [CellValue.str "abc"] 0 1 0 (by decide)).1).trans rfl,
   (c9_non_numeric_cells_amended [] 0 1 0 (by decide)).2.2.2.2.2.2 " " (by decide)⟩

/-! ## Theorems: per-symbol diff classification -/

theorem firstQuoteAt_none_iff (tz : Int) (history : List Quote) (k : String) :
    firstQuoteAt tz history k = none
      ↔ ∀ q ∈ history, extractQuoteDateKey tz q ≠ some k := by
  unfold firstQuoteAt
  rw [List.find?_eq_none]
  constructor
  · intro h q hq
    have := h q hq
    simpa using this
  · intro h q hq
    simpa using h q hq

theorem quoteKeys_contains_iff (tz : Int) (history : List Quote) (k : String) :
    (quoteKeys tz history).contains k = true
      ↔ ∃ q ∈ history, extractQuoteDateKey tz q = some k := by
  unfold quoteKeys
  rw [List.contains_iff_exists_mem_beq]
  constructor
  · rintro ⟨k', hk', hbeq⟩
    obtain ⟨q, hq, hfq⟩ := List.mem_filterMap.1 hk'
    refine ⟨q, hq, ?_⟩
    rw [eq_of_beq hbeq]
    exact hfq
  · rintro ⟨q, hq, hfq⟩
    exact ⟨k, List.mem_filterMap.2 ⟨q, hq, hfq⟩, by simp⟩

/-- C6: During the per-symbol diff, a schedule point whose ISO date has an
existing recorded quote is classified as an update iff the absolute
difference between the recorded price (adjclose, else close, else open) and
the newly computed price exceeds 0.004; within tolerance the point is
skipped; and a point whose date has no recorded quote is always emitted as
an addition.  In particular, recorded 100.00 versus computed 100.003 is
unchanged, and versus 100.01 is an update. -/
theorem c6_diff_tolerance (tz : Int) (history : List Quote) (symbol : String) (v : DailyValue) :
    ((∀ ex, firstQuoteAt tz history (formatDateISO v.date) = some ex →
      (classifyPoint tz history symbol v
          = some (buildQuotePayload symbol v.date v.price (some ex))
        ↔ |recordedPrice ex - v.price| > 4 / 1000) ∧
      (classifyPoint tz history symbol v = none ↔ |recordedPrice ex - v.price| ≤ 4 / 1000)) ∧
    ((∀ q ∈ history, extractQuoteDateKey tz q ≠ some (formatDateISO v.date)) →
      classifyPoint tz history symbol v = some (buildQuotePayload symbol v.date v.price none)) ∧
    computeQuotesToAdd tz history symbol [v] = (classifyPoint tz history symbol v).toList) ∧
    classifyPoint 0 [exQuote100] "ROR0127" ⟨daysFromCivil 2024 1 19, 100 + 3/1000⟩ = none ∧
    classifyPoint 0 [exQuote100] "ROR0127" ⟨daysFromCivil 2024 1 19, 100 + 1/100⟩
      = some (buildQuotePayload "ROR0127" (daysFromCivil 2024 1 19) (100 + 1/100)
          (some exQuote100)) := by
  have main : ∀ (tz : Int) (history : List Quote) (symbol : String) (v : DailyValue),
      (∀ ex, firstQuoteAt tz history (formatDateISO v.date) = some ex →
        (classifyPoint tz history symbol v
            = some (buildQuotePayload symbol v.date v.price (some ex))
          ↔ |recordedPrice ex - v.price| > 4 / 1000) ∧
        (classifyPoint tz history symbol v = none
          ↔ |recordedPrice ex - v.price| ≤ 4 / 1000)) ∧
      ((∀ q ∈ history, extractQuoteDateKey tz q ≠ some (formatDateISO v.date)) →
        classifyPoint tz history symbol v = some (buildQuotePayload symbol v.date v.price none)) ∧
      computeQuotesToAdd tz history symbol [v] = (classifyPoint tz history symbol v).toList := by
    intro tz history symbol v
    refine ⟨?_, ?_, ?_⟩
    · intro ex hex
      by_cases hp : |recordedPrice ex - v.price| > 4 / 1000
      · have hpc : priceChanged ex v.price = true := by
          unfold priceChanged
          exact decide_eq_true hp
        constructor
        · simp only [classifyPoint, hex, hpc, if_true]
          exact iff_of_true trivial hp
        · simp only [classifyPoint, hex, hpc, if_true]
          constructor
          · intro h
            exact absurd h (by simp)
          · intro h
            exact absurd hp (not_lt.2 h)
      · have hpc : priceChanged ex v.price = false := by
          unfold priceChanged
          exact decide_eq_false hp
        constructor
        · simp only [classifyPoint, hex, hpc, if_false]
          constructor
          · intro h
            exact absurd h (by simp)
          · intro h
            exact absurd h hp
        · simp only [classifyPoint, hex, hpc, if_false]
          constructor
          · intro _
            exact not_lt.1 hp
          · intro _
            rfl
    · intro hnone
      have hfq : firstQuoteAt tz history (formatDateISO v.date) = none :=
        (firstQuoteAt_none_iff tz history _).2 hnone
      have hcont : (quoteKeys tz history).contains (formatDateISO v.date) = false := by
        rcases hc : (quoteKeys tz history).contains (formatDateISO v.date) with _ | _
        · rfl
        · obtain ⟨q, hq, hkq⟩ := (quoteKeys_contains_iff tz history _).1 hc
          exact absurd hkq (hnone q hq)
      simp only [classifyPoint, hfq, hcont]
      rfl
    · unfold computeQuotesToAdd
      cases hc : classifyPoint tz history symbol v <;>
        simp [List.filterMap, hc, Option.toList]
  have hfq100 : firstQuoteAt 0 [exQuote100] (formatDateISO (daysFromCivil 2024 1 19))
      = some exQuote100 := by
    unfold firstQuoteAt
    have hb : (extractQuoteDateKey 0 exQuote100
        == some (formatDateISO (daysFromCivil 2024 1 19))) = true := by decide
    simp [List.find?, hb]
  have hrec : recordedPrice exQuote100 = 100 := rfl
  refine ⟨main tz history symbol v, ?_, ?_⟩
  · refine ((main 0 [exQuote100] "ROR0127" ⟨daysFromCivil 2024 1 19, 100 + 3/1000⟩).1
      exQuote100 hfq100).2.mpr ?_
    rw [hrec]
    rw [show (100 : ℚ) - (100 + 3/1000) = -(3/1000) by ring, abs_neg,
      abs_of_nonneg (by norm_num)]
    norm_num
  · refine ((main 0 [exQuote100] "ROR0127" ⟨daysFromCivil 2024 1 19, 100 + 1/100⟩).1
      exQuote100 hfq100).1.mpr ?_
    rw [hrec]
    rw [show (100 : ℚ) - (100 + 1/100) = -(1/100) by ring, abs_neg,
      abs_of_nonneg (by norm_num)]
    norm_num

/-- Witness for C6: the spec's tolerance scenario, extracted from the claim
theorem at the concrete recorded quote. -/
theorem c6_diff_tolerance_witness :
    classifyPoint 0 [exQuote100] "ROR0127" ⟨daysFromCivil 2024 1 19, 100 + 3/1000⟩ = none ∧
    classifyPoint 0 [exQuote100] "ROR0127" ⟨daysFromCivil 2024 1 19, 100 + 1/100⟩
      = some (buildQuotePayload "ROR0127" (daysFromCivil 2024 1 19) (100 + 1/100)
          (some exQuote100)) :=
  ⟨(c6_diff_tolerance 0 [] "" ⟨0, 0⟩).2.1, (c6_diff_tolerance 0 [] "" ⟨0, 0⟩).2.2⟩

/-! ## Theorems: period construction -/

theorem spanSum_eq : ∀ (k i base rem : Nat),
    spanSum base rem i k = base * k + (min rem (i + k) - min rem i) := by
  intro k
  induction k with
  | zero =>
    intro i base rem
    simp only [spanSum]
    omega
  | succ k ih =>
    intro i base rem
    simp only [spanSum, daySpan]
    rw [ih (i + 1), Nat.mul_succ]
    split <;> omega

theorem buildPeriodsMonthsGo_structure : ∀ (k : Nat) (cursor stop : Int) (pm : Nat), 1 ≤ k →
    (buildPeriodsMonthsGo k cursor stop pm).length = k ∧
    Contiguous cursor (buildPeriodsMonthsGo k cursor stop pm) ∧
    (∃ lastPer, (buildPeriodsMonthsGo k cursor stop pm).getLast? = some lastPer ∧
      lastPer.stop = stop) ∧
    ∀ per ∈ (buildPeriodsMonthsGo k cursor stop pm).dropLast,
      per.stop = addMonths per.start pm := by
  intro k
  induction k with
  | zero =>
    intro cursor stop pm hk
    exact absurd hk (by omega)
  | succ k ih =>
    intro cursor stop pm _
    by_cases hk : k = 0
    · subst hk
      refine ⟨rfl, ⟨rfl, trivial⟩, ⟨⟨cursor, stop⟩, rfl, rfl⟩, ?_⟩
      intro per hper
      simp [buildPeriodsMonthsGo] at hper
    · have hred : buildPeriodsMonthsGo (k + 1) cursor stop pm
          = ⟨cursor, addMonths cursor pm⟩
              :: buildPeriodsMonthsGo k (addMonths cursor pm) stop pm := by
        simp [buildPeriodsMonthsGo, hk]
      obtain ⟨hl, hc, ⟨lastPer, hlast, hstop⟩, hmid⟩ :=
        ih (addMonths cursor pm) stop pm (by omega)
      rw [hred]
      cases htail : buildPeriodsMonthsGo k (addMonths cursor pm) stop pm with
      | nil =>
        rw [htail] at hlast
        exact absurd hlast (by simp)
      | cons q qs =>
        rw [htail] at hl hc hlast hmid
        refine ⟨by simp [hl], ⟨rfl, hc⟩, ⟨lastPer, ?_, hstop⟩, ?_⟩
        · rw [List.getLast?_cons_cons]
          exact hlast
        · intro per hper
          rw [List.dropLast_cons₂] at hper
          rcases List.mem_cons.1 hper with hper | hper
          · rw [hper]
          · exact hmid per hper

theorem buildPeriodsDaysGo_structure : ∀ (k i : Nat) (cursor stop : Int) (base rem : Nat),
    1 ≤ k →
    (buildPeriodsDaysGo k i cursor stop base rem).length = k ∧
    Contiguous cursor (buildPeriodsDaysGo k i cursor stop base rem) ∧
    (∃ lastPer, (buildPeriodsDaysGo k i cursor stop base rem).getLast? = some lastPer ∧
      lastPer.stop = stop) := by
  intro k
  induction k with
  | zero =>
    intro i cursor stop base rem hk
    exact absurd hk (by omega)
  | succ k ih =>
    intro i cursor stop base rem _
    by_cases hk : k = 0
    · subst hk
      exact ⟨rfl, ⟨rfl, trivial⟩, ⟨⟨cursor, stop⟩, rfl, rfl⟩⟩
    · have hred : buildPeriodsDaysGo (k + 1) i cursor stop base rem
          = ⟨cursor, addDays cursor (daySpan base rem i)⟩
              :: buildPeriodsDaysGo k (i + 1) (addDays cursor (daySpan base rem i)) stop base rem := by
        simp [buildPeriodsDaysGo, hk, daySpan]
      obtain ⟨hl, hc, ⟨lastPer, hlast, hstop⟩⟩ :=
        ih (i + 1) (addDays cursor (daySpan base rem i)) stop base rem (by omega)
      rw [hred]
      cases htail : buildPeriodsDaysGo k (i + 1) (addDays cursor (daySpan base rem i)) stop base rem with
      | nil =>
        rw [htail] at hlast
        exact absurd hlast (by simp)
      | cons q qs =>
        rw [htail] at hl hc hlast
        refine ⟨by simp [hl], ⟨rfl, hc⟩, ⟨lastPer, ?_, hstop⟩⟩
        rw [List.getLast?_cons_cons]
        exact hlast

theorem buildPeriodsDaysGo_spans : ∀ (k i : Nat) (cursor stop : Int) (base rem : Nat),
    1 ≤ k →
    cursor + (spanSum base rem i k : Int) = stop →
    (buildPeriodsDaysGo k i cursor stop base rem).map (fun per => per.stop - per.start)
      = (List.range' i k).map (fun j => (daySpan base rem j : Int)) := by
  intro k
  induction k with
  | zero =>
    intro i cursor stop base rem hk
    exact fun _ => absurd hk (by omega)
  | succ k ih =>
    intro i cursor stop base rem _ hsum
    by_cases hk : k = 0
    · subst hk
      have : buildPeriodsDaysGo 1 i cursor stop base rem = [⟨cursor, stop⟩] := rfl
      rw [this]
      simp only [spanSum] at hsum
      simp [List.range']
      omega
    · have hred : buildPeriodsDaysGo (k + 1) i cursor stop base rem
          = ⟨cursor, addDays cursor (daySpan base rem i)⟩
              :: buildPeriodsDaysGo k (i + 1) (addDays cursor (daySpan base rem i)) stop base rem := by
        simp [buildPeriodsDaysGo, hk, daySpan]
      rw [hred]
      have hsum' : addDays cursor (daySpan base rem i) + (spanSum base rem (i + 1) k : Int)
          = stop := by
        simp only [spanSum] at hsum
        unfold addDays
        push_cast at hsum ⊢
        omega
      rw [List.map_cons, ih (i + 1) _ stop base rem (by omega) hsum']
      have hr : List.range' i (k + 1) = i :: List.range' (i + 1) k := rfl
      rw [hr, List.map_cons]
      have hhead : addDays cursor (daySpan base rem i) - cursor = (daySpan base rem i : Int) := by
        unfold addDays
        omega
      rw [hhead]

theorem buildPeriods_months_eq (start stop : Int) (k pm : Nat) (hk : 1 ≤ k) (hpm : pm ≠ 0) :
    buildPeriods start stop k (some pm) = buildPeriodsMonthsGo k start stop pm := by
  unfold buildPeriods
  rw [if_neg (by omega)]
  simp [hpm]

theorem buildPeriods_days_eq (start stop : Int) (k : Nat) (hk : 1 ≤ k) :
    buildPeriods start stop k none = buildPeriodsDays start stop k := by
  unfold buildPeriods
  rw [if_neg (by omega)]

theorem resolvePeriodMonths_pos {t : Option Nat} {n pm : Nat}
    (h : resolvePeriodMonths t n = some pm) : 1 ≤ pm := by
  cases t with
  | none => exact absurd h (by simp [resolvePeriodMonths])
  | some T =>
    simp only [resolvePeriodMonths] at h
    by_cases h0 : T = 0 ∨ n = 0
    · rw [if_pos h0] at h
      exact absurd h (by simp)
    · rw [if_neg h0] at h
      by_cases hmod : T % n = 0
      · rw [if_pos hmod] at h
        have hpm : pm = T / n := by
          have := Option.some.inj h
          omega
        have hT := Nat.div_add_mod T n
        by_contra hzero
        have : pm = 0 := by omega
        rw [hpm] at this
        rw [this] at hT
        simp at hT
        omega
      · rw [if_neg hmod] at h
        exact absurd h (by simp)

/-- Counterexample to C2 as stated: the divisible-term series `exDos31`
(rates `[0.02, 0.025]`, term "12 mies.", sold 2024-08-31) yields the periods
`[2024-08-31, 2025-02-28]` and `[2025-02-28, 2025-08-31]`; the first 6-month
step clamps the day-of-month, so the second period is not a span of 6
calendar months (its start plus 6 months is 2025-08-28, and
`monthsBetween` of its endpoints is null). -/
theorem c2_period_splitting_counterexample :
    resolvePurchaseDate exDos31.saleStart exDos31.saleEnd none = daysFromCivil 2024 8 31 ∧
    getBuyoutDate exDos31 (daysFromCivil 2024 8 31) = some (daysFromCivil 2025 8 31) ∧
    termMonthsOf exDos31 (daysFromCivil 2024 8 31) (daysFromCivil 2025 8 31) = some 12 ∧
    buildPeriods (daysFromCivil 2024 8 31) (daysFromCivil 2025 8 31) 2
        (resolvePeriodMonths (termMonthsOf exDos31 (daysFromCivil 2024 8 31)
          (daysFromCivil 2025 8 31)) 2)
      = [⟨daysFromCivil 2024 8 31, daysFromCivil 2025 2 28⟩,
         ⟨daysFromCivil 2025 2 28, daysFromCivil 2025 8 31⟩] ∧
    ¬ (∀ per ∈ buildPeriods (daysFromCivil 2024 8 31) (daysFromCivil 2025 8 31) 2
        (resolvePeriodMonths (termMonthsOf exDos31 (daysFromCivil 2024 8 31)
          (daysFromCivil 2025 8 31)) 2),
        per.stop = addMonths per.start 6) ∧
    monthsBetween (daysFromCivil 2025 2 28) (daysFromCivil 2025 8 31) = none := by
  decide

/-- C2 (amended): For every non-OTS series with
periodCount = max(len rateValues, len interestValues) ≥ 1 and a resolvable
buyout date, the period list always consists of periodCount contiguous spans
from purchaseDate whose last span ends exactly at buyoutDate.  When the term
in months is evenly divisible by periodCount, every span except the last
ends exactly termMonths/periodCount calendar months after its start (the
last is forced to the buyout date, which can differ when day-of-month
clamping occurred, as in the counterexample).  Otherwise the spans split the
total day count as evenly as possible, earlier periods receiving the extra
day.  The spec's scenario (rates `[0.02, 0.025]`, 12-month term ⇒ two
6-calendar-month periods) holds exactly. -/
theorem c2_period_splitting_amended (s : BondSeries) (purchaseDay : Option Nat)
    (p b : Int) (n : Nat)
    (hp : p = resolvePurchaseDate s.saleStart s.saleEnd purchaseDay)
    (hb : getBuyoutDate s p = some b)
    (hn : n = max s.rateValues.length s.interestValues.length)
    (h1 : 1 ≤ n) :
    ((buildPeriods p b n (resolvePeriodMonths (termMonthsOf s p b) n)).length = n ∧
     Contiguous p (buildPeriods p b n (resolvePeriodMonths (termMonthsOf s p b) n)) ∧
     (∃ lastPer,
       (buildPeriods p b n (resolvePeriodMonths (termMonthsOf s p b) n)).getLast?
          = some lastPer ∧ lastPer.stop = b)) ∧
    (∀ T, termMonthsOf s p b = some T → T ≠ 0 → T % n = 0 →
      ∀ per ∈ (buildPeriods p b n (resolvePeriodMonths (termMonthsOf s p b) n)).dropLast,
        per.stop = addMonths per.start (T / n)) ∧
    (resolvePeriodMonths (termMonthsOf s p b) n = none → p ≤ b →
      (buildPeriods p b n (resolvePeriodMonths (termMonthsOf s p b) n)).map
          (fun per => per.stop - per.start)
        = (List.range' 0 n).map (fun j =>
            (daySpan (daysBetween p b / n) (daysBetween p b % n) j : Int))) ∧
    (buildPeriods (daysFromCivil 2024 2 1) (daysFromCivil 2025 2 1) 2
        (resolvePeriodMonths (termMonthsOf exDos (daysFromCivil 2024 2 1)
          (daysFromCivil 2025 2 1)) 2)
      = [⟨daysFromCivil 2024 2 1, daysFromCivil 2024 8 1⟩,
         ⟨daysFromCivil 2024 8 1, daysFromCivil 2025 2 1⟩] ∧
     addMonths (daysFromCivil 2024 2 1) 6 = daysFromCivil 2024 8 1 ∧
     addMonths (daysFromCivil 2024 8 1) 6 = daysFromCivil 2025 2 1) := by
  refine ⟨?_, ?_, ?_, by decide, by decide, by decide⟩
  · cases hres : resolvePeriodMonths (termMonthsOf s p b) n with
    | none =>
      rw [buildPeriods_days_eq p b n h1]
      unfold buildPeriodsDays
      obtain ⟨hl, hc, hlast⟩ :=
        buildPeriodsDaysGo_structure n 0 p b (daysBetween p b / n) (daysBetween p b % n) h1
      exact ⟨hl, hc, hlast⟩
    | some pm =>
      have hpm := resolvePeriodMonths_pos hres
      rw [buildPeriods_months_eq p b n pm h1 (by omega)]
      obtain ⟨hl, hc, hlast, _⟩ := buildPeriodsMonthsGo_structure n p b pm h1
      exact ⟨hl, hc, hlast⟩
  · intro T hT hT0 hTmod
    have hres : resolvePeriodMonths (termMonthsOf s p b) n = some (T / n) := by
      rw [hT]
      simp only [resolvePeriodMonths]
      rw [if_neg (by omega), if_pos hTmod]
    rw [hres, buildPeriods_months_eq p b n (T / n) h1 ?hpos]
    case hpos =>
      have := resolvePeriodMonths_pos hres
      omega
    exact (buildPeriodsMonthsGo_structure n p b (T / n) h1).2.2.2
  · intro hres hpb
    rw [hres, buildPeriods_days_eq p b n h1]
    unfold buildPeriodsDays
    apply buildPeriodsDaysGo_spans n 0 p b _ _ h1
    rw [spanSum_eq]
    have hrem : daysBetween p b % n < n := Nat.mod_lt _ (by omega)
    have hmin : min (daysBetween p b % n) (0 + n) - min (daysBetween p b % n) 0
        = daysBetween p b % n := by
      omega
    rw [hmin]
    have hdm := Nat.div_add_mod (daysBetween p b) n
    rw [Nat.mul_comm] at hdm
    rw [hdm]
    have hdb : (daysBetween p b : Int) = b - p := by
      unfold daysBetween
      omega
    omega

/-- Witness for C2 (amended) at the spec's scenario series `exDos`. -/
theorem c2_period_splitting_amended_witness :
    buildPeriods (daysFromCivil 2024 2 1) (daysFromCivil 2025 2 1) 2
        (resolvePeriodMonths (termMonthsOf exDos (daysFromCivil 2024 2 1)
          (daysFromCivil 2025 2 1)) 2)
      = [⟨daysFromCivil 2024 2 1, daysFromCivil 2024 8 1⟩,
         ⟨daysFromCivil 2024 8 1, daysFromCivil 2025 2 1⟩] :=
  (c2_period_splitting_amended exDos none (daysFromCivil 2024 2 1) (daysFromCivil 2025 2 1) 2
    (by decide) (by decide) (by decide) (by decide)).2.2.2.1

/-! ## Theorems: decimal formatting and ISO parsing round trip -/

theorem digitVal_digitChar : ∀ n : Nat, n < 10 → digitVal (digitChar n) = some n := by
  decide

theorem natReprGo_fuel : ∀ (f₁ f₂ n : Nat), n < f₁ → n < f₂ →
    natReprGo f₁ n = natReprGo f₂ n := by
  intro f₁
  induction f₁ with
  | zero =>
    intro f₂ n h1 _
    exact absurd h1 (by omega)
  | succ f₁ ih =>
    intro f₂ n h1 h2
    cases f₂ with
    | zero => exact absurd h2 (by omega)
    | succ f₂ =>
      by_cases h10 : n < 10
      · simp [natReprGo, h10]
      · simp only [natReprGo, if_neg h10]
        rw [ih f₂ (n / 10) (by omega) (by omega)]

theorem natRepr_lt10 {n : Nat} (h : n < 10) : natRepr n = [digitChar n] := by
  unfold natRepr
  simp [natReprGo, h]

theorem natRepr_step {n : Nat} (h : 10 ≤ n) :
    natRepr n = natRepr (n / 10) ++ [digitChar (n % 10)] := by
  have h1 : natRepr n = natReprGo n (n / 10) ++ [digitChar (n % 10)] := by
    unfold natRepr
    simp only [natReprGo, if_neg (show ¬ n < 10 by omega)]
  rw [h1, natReprGo_fuel n (n / 10 + 1) (n / 10) (by omega) (by omega)]
  rfl

theorem natRepr_four {n : Nat} (h1 : 1000 ≤ n) (h2 : n ≤ 9999) :
    natRepr n = [digitChar (n / 1000), digitChar (n / 100 % 10),
      digitChar (n / 10 % 10), digitChar (n % 10)] := by
  rw [natRepr_step (show 10 ≤ n by omega)]
  rw [natRepr_step (show 10 ≤ n / 10 by omega)]
  rw [show n / 10 / 10 = n / 100 by omega]
  rw [natRepr_step (show 10 ≤ n / 100 by omega)]
  rw [show n / 100 / 10 = n / 1000 by omega]
  rw [natRepr_lt10 (show n / 1000 < 10 by omega)]
  rw [show n / 10 % 10 = n / 10 % 10 from rfl]
  simp

theorem pad2_eq {m : Nat} (h : m ≤ 99) :
    pad2 m = [digitChar (m / 10), digitChar (m % 10)] := by
  unfold pad2
  by_cases h10 : m < 10
  · rw [if_pos h10, show m / 10 = 0 by omega, show m % 10 = m by omega]
    rfl
  · rw [if_neg h10, natRepr_step (show 10 ≤ m by omega),
      natRepr_lt10 (show m / 10 < 10 by omega)]
    rfl

theorem parse4At_digits (a b c d : Nat) (ha : a < 10) (hb : b < 10) (hc : c < 10)
    (hd : d < 10) (rest : List Char) :
    parse4At (digitChar a :: digitChar b :: digitChar c :: digitChar d :: rest)
      = some (1000 * a + 100 * b + 10 * c + d, rest) := by
  simp [parse4At, digitVal_digitChar a ha, digitVal_digitChar b hb,
    digitVal_digitChar c hc, digitVal_digitChar d hd]

theorem parse2At_digits (a b : Nat) (ha : a < 10) (hb : b < 10) (rest : List Char) :
    parse2At (digitChar a :: digitChar b :: rest) = some (10 * a + b, rest) := by
  simp [parse2At, digitVal_digitChar a ha, digitVal_digitChar b hb]

theorem monthLen_le (leap : Bool) (m : Nat) : monthLen leap m ≤ 31 := by
  unfold monthLen
  split <;> try omega
  split <;> omega

theorem parseDateChars_format (d : Int) (rest : List Char)
    (hy1 : 1000 ≤ (civilFromDays d).year) (hy2 : (civilFromDays d).year ≤ 9999) :
    parseDateChars ((formatDateISO d).data ++ rest) = some (d, rest) := by
  obtain ⟨hm1, hm2, hd1, hd2, hrt⟩ :=
    (civilFromDays_spec d : _ ∧ _ ∧ _ ∧ _ ∧ _)
  have hneg : ¬ (civilFromDays d).year < 0 := by omega
  have hiso : (formatDateISO d).data
      = natRepr (civilFromDays d).year.toNat
          ++ '-' :: (pad2 (civilFromDays d).month ++ '-' :: pad2 (civilFromDays d).day) := by
    simp [formatDateISO, intRepr, hneg]
  have hmlen := monthLen_le (isLeapN (((civilFromDays d).year % 400).toNat))
    (civilFromDays d).month
  rw [hiso, natRepr_four (by omega) (by omega),
    pad2_eq (show (civilFromDays d).month ≤ 99 by omega),
    pad2_eq (show (civilFromDays d).day ≤ 99 by omega)]
  simp only [List.cons_append, List.append_assoc, List.nil_append]
  unfold parseDateChars
  rw [parse4At_digits _ _ _ _ (by omega) (by omega) (by omega) (by omega)]
  simp only
  rw [parse2At_digits _ _ (by omega) (by omega)]
  simp only
  rw [parse2At_digits _ _ (by omega) (by omega)]
  simp only
  have hy : 1000 * ((civilFromDays d).year.toNat / 1000)
      + 100 * ((civilFromDays d).year.toNat / 100 % 10)
      + 10 * ((civilFromDays d).year.toNat / 10 % 10)
      + (civilFromDays d).year.toNat % 10 = (civilFromDays d).year.toNat := by
    omega
  have hm : 10 * ((civilFromDays d).month / 10) + (civilFromDays d).month % 10
      = (civilFromDays d).month := by
    omega
  have hdd : 10 * ((civilFromDays d).day / 10) + (civilFromDays d).day % 10
      = (civilFromDays d).day := by
    omega
  rw [hy, hm, hdd]
  have hmod : (civilFromDays d).year.toNat % 400 = ((civilFromDays d).year % 400).toNat := by
    omega
  rw [if_pos (by
    refine ⟨hm1, hm2, hd1, ?_⟩
    rw [hmod]
    exact hd2)]
  have hcast : ((civilFromDays d).year.toNat : Int) = (civilFromDays d).year := by
    omega
  rw [hcast, hrt]

theorem parseTimestampChars_format (d : Int)
    (hy1 : 1000 ≤ (civilFromDays d).year) (hy2 : (civilFromDays d).year ≤ 9999) :
    parseTimestampChars ((formatDateISO d ++ "T00:00:00.000Z").data)
      = some (d * 86400000) := by
  have hdata : (formatDateISO d ++ "T00:00:00.000Z").data
      = (formatDateISO d).data ++ "T00:00:00.000Z".data := rfl
  rw [hdata]
  unfold parseTimestampChars
  rw [parseDateChars_format d _ hy1 hy2]
  have htail : parseTimeTail d ("T00:00:00.000Z".data) = some (d * 86400000 + 0) := rfl
  rw [show (match some (d, "T00:00:00.000Z".data) with
      | none => none
      | some (day, rest) => parseTimeTail day rest) = parseTimeTail d ("T00:00:00.000Z".data)
    from rfl]
  rw [htail]
  simp

theorem extract_buildQuote (tz : Int) (htz1 : 0 ≤ tz) (htz2 : tz < 1440)
    (s : String) (d : Int) (price : ℚ)
    (hy1 : 1000 ≤ (civilFromDays d).year) (hy2 : (civilFromDays d).year ≤ 9999) :
    extractQuoteDateKey tz (buildQuote s d price) = some (formatDateISO d) := by
  have hne : (formatDateISO d ++ "T00:00:00.000Z") ≠ "" := by
    intro h
    have hlen : (formatDateISO d ++ "T00:00:00.000Z").data.length = 0 := by
      rw [h]
      rfl
    have hsplit : (formatDateISO d ++ "T00:00:00.000Z").data
        = (formatDateISO d).data ++ "T00:00:00.000Z".data := rfl
    rw [hsplit] at hlen
    simp at hlen
  have hstep : extractQuoteDateKey tz (buildQuote s d price)
      = (if (formatDateISO d ++ "T00:00:00.000Z") ≠ "" then
          match parseTimestampChars (formatDateISO d ++ "T00:00:00.000Z").data with
          | some ms => some (formatDateISO (localDayOfMs ms tz))
          | none => extractKeyFromId (buildQuote s d price)
        else extractKeyFromId (buildQuote s d price)) := rfl
  rw [hstep, if_pos hne, parseTimestampChars_format d hy1 hy2]
  have hlocal : localDayOfMs (d * 86400000) tz = d := by
    unfold localDayOfMs
    omega
  show some (formatDateISO (localDayOfMs (d * 86400000) tz)) = some (formatDateISO d)
  rw [hlocal]

/-- C10: For every calendar date d (in the engine's 4-digit-year range),
symbol s and price p, extracting the date key from the quote the engine
writes recovers the same date — `extractQuoteDateKey (buildQuote s d p)`
equals the ISO string of d — provided the local timezone offset from UTC is
non-negative (and below one day).  With a negative offset the timestamp path
yields the previous day, shown here at a concrete date. -/
theorem c10_quote_date_key_roundtrip (s : String) (d : Int) (p : ℚ) (tz : Int)
    (hy1 : 1000 ≤ (civilFromDays d).year) (hy2 : (civilFromDays d).year ≤ 9999)
    (htz1 : 0 ≤ tz) (htz2 : tz < 1440) :
    extractQuoteDateKey tz (buildQuote s d p) = some (formatDateISO d) ∧
    extractQuoteDateKey (-60) (buildQuote "ROR0127" (daysFromCivil 2024 1 19) 100)
      = some "2024-01-18" ∧
    formatDateISO (daysFromCivil 2024 1 19) = "2024-01-19" := by
  refine ⟨extract_buildQuote tz htz1 htz2 s d p hy1 hy2, by decide, by decide⟩

/-- Witness for C10 at 2024-01-19, UTC offset zero. -/
theorem c10_quote_date_key_roundtrip_witness :
    extractQuoteDateKey 0 (buildQuote "ROR0127" (daysFromCivil 2024 1 19) 100)
      = some (formatDateISO (daysFromCivil 2024 1 19)) :=
  (c10_quote_date_key_roundtrip "ROR0127" (daysFromCivil 2024 1 19) 100 0
    (by decide) (by decide) (by decide) (by decide)).1

/-! ## Theorems: daily-variant map invariants -/

/-- Every value of `mapSet m k v` is `v` or a value of `m`. -/
theorem mapSet_forall {P : DailyValue → Prop} {m : List (String × DailyValue)}
    {k : String} {v : DailyValue} (hm : ∀ kv ∈ m, P kv.2) (hv : P v) :
    ∀ kv ∈ mapSet m k v, P kv.2 := by
  intro kv hkv
  unfold mapSet at hkv
  by_cases hany : m.any (fun kv => kv.1 == k) = true
  · rw [if_pos hany] at hkv
    obtain ⟨kv', hkv', heq⟩ := List.mem_map.1 hkv
    by_cases hk : (kv'.1 == k) = true
    · rw [if_pos hk] at heq
      rw [← heq]
      exact hv
    · rw [if_neg hk] at heq
      rw [← heq]
      exact hm kv' hkv'
  · rw [if_neg hany] at hkv
    rcases List.mem_append.1 hkv with hmem | hmem
    · exact hm kv hmem
    · rw [List.mem_singleton.1 hmem]
      exact hv

/-- `addValue` invariant transfer. -/
theorem addValue_forall {P : DailyValue → Prop} {m : List (String × DailyValue)}
    {date : Int} {price : ℚ} (hm : ∀ kv ∈ m, P kv.2) (hv : P ⟨date, price⟩) :
    ∀ kv ∈ addValue m date price, P kv.2 :=
  mapSet_forall hm hv

/-- `addValueIfPast` invariant transfer: the new value need only satisfy the
invariant when its date is in the past. -/
theorem addValueIfPast_forall {P : DailyValue → Prop} {today : Int}
    {m : List (String × DailyValue)} {date : Int} {price : ℚ}
    (hm : ∀ kv ∈ m, P kv.2) (hv : date ≤ today → P ⟨date, price⟩) :
    ∀ kv ∈ addValueIfPast today m date price, P kv.2 := by
  unfold addValueIfPast
  by_cases h : date ≤ today
  · rw [if_pos h]
    exact addValue_forall hm (hv h)
  · rw [if_neg h]
    exact hm

/-- Invariant transfer along the OTS daily-interpolation loop. -/
theorem otsDailyGo_forall {P : DailyValue → Prop} (p : Int) (emission amount : ℚ)
    (totalDays : Nat) : ∀ (k off : Nat) (m : List (String × DailyValue)),
    (∀ kv ∈ m, P kv.2) →
    (∀ j : Nat, off ≤ j → j < off + k →
      P ⟨addDays p (j : Int), round2 (emission + amount * ((j : ℚ) / (totalDays : ℚ)))⟩) →
    ∀ kv ∈ otsDailyGo p emission amount totalDays k off m, P kv.2 := by
  intro k
  induction k with
  | zero =>
    intro off m hm _
    exact hm
  | succ n ih =>
    intro off m hm hj
    simp only [otsDailyGo]
    exact ih (off + 1) _ (addValue_forall hm (hj off le_rfl (by omega)))
      (fun j h1 h2 => hj j (by omega) (by omega))

/-- Invariant transfer along the per-period daily-interpolation loop. -/
theorem periodDailyGo_forall {P : DailyValue → Prop} (start : Int) (currentValue amount : ℚ)
    (periodDays : Nat) : ∀ (k off : Nat) (m : List (String × DailyValue)),
    (∀ kv ∈ m, P kv.2) →
    (∀ j : Nat, off ≤ j → j < off + k →
      P ⟨addDays start (j : Int), round2 (currentValue + amount * ((j : ℚ) / (periodDays : ℚ)))⟩) →
    ∀ kv ∈ periodDailyGo start currentValue amount periodDays k off m, P kv.2 := by
  intro k
  induction k with
  | zero =>
    intro off m hm _
    exact hm
  | succ n ih =>
    intro off m hm hj
    simp only [periodDailyGo]
    exact ih (off + 1) _ (addValue_forall hm (hj off le_rfl (by omega)))
      (fun j h1 h2 => hj j (by omega) (by omega))

/-- Every value recorded by the per-period loop of the daily variant is dated
no later than `today`, provided the incoming map already is. -/
theorem schedDailyGo_dates_le (s : BondSeries) (today : Int) :
    ∀ (periods : List Period) (i : Nat) (cur : ℚ) (m : List (String × DailyValue)),
    (∀ kv ∈ m, kv.2.date ≤ today) →
    ∀ kv ∈ schedDailyGo s today periods i cur m, kv.2.date ≤ today := by
  intro periods
  induction periods with
  | nil =>
    intro i cur m hm
    exact hm
  | cons per rest ih =>
    intro i cur m hm
    simp only [schedDailyGo]
    by_cases hni : s.rateValues.getD i none = none ∧ s.interestValues.getD i none = none
    · rw [if_pos hni]
      exact ih _ _ _ hm
    · rw [if_neg hni]
      cases hp : periodInterestAmount (s.rateValues.getD i none) (s.interestValues.getD i none)
          cur (daysBetween per.start per.stop) with
      | none => exact ih _ _ _ hm
      | some amount =>
        apply ih
        apply addValueIfPast_forall (P := fun v => v.date ≤ today)
        · by_cases hcond : per.start < (if today < per.stop then today else per.stop) ∧
              0 < daysBetween per.start per.stop
          · rw [if_pos hcond]
            apply periodDailyGo_forall (P := fun v => v.date ≤ today) _ _ _ _ _ _ _ hm
            intro j h1 h2
            show addDays per.start (j : Int) ≤ today
            have hlt := hcond.1
            unfold addDays
            unfold daysBetween at h2
            by_cases ht : today < per.stop
            · rw [if_pos ht] at hlt h2
              omega
            · rw [if_neg ht] at hlt h2
              omega
          · rw [if_neg hcond]
            exact hm
        · intro hle
          exact hle

/-- Membership in `insertByDate`. -/
theorem mem_insertByDate (v w : DailyValue) :
    ∀ l : List DailyValue, (w ∈ insertByDate v l ↔ w = v ∨ w ∈ l) := by
  intro l
  induction l with
  | nil => simp [insertByDate]
  | cons x xs ih =>
    unfold insertByDate
    by_cases h : v.date ≤ x.date
    · rw [if_pos h]
      simp [List.mem_cons]
    · rw [if_neg h]
      simp only [List.mem_cons, ih]
      tauto

/-- Sorting by date preserves membership. -/
theorem mem_sortByDate (w : DailyValue) :
    ∀ l : List DailyValue, (w ∈ sortByDate l ↔ w ∈ l) := by
  intro l
  induction l with
  | nil => simp [sortByDate]
  | cons x xs ih =>
    unfold sortByDate
    rw [mem_insertByDate]
    simp only [List.mem_cons, ih]

/-- C5: in the daily-interpolated variant, every returned schedule point is
dated on or before `today`: daily points stop at `min(today, period end /
buyout date)` and boundary points after `today` are withheld. -/
theorem c5_daily_backfill_only (s : BondSeries) (purchaseDay : Option Nat) (today : Int)
    (vs : List DailyValue) (h : buildScheduledValuesDaily s purchaseDay today = some vs) :
    ∀ v ∈ vs, v.date ≤ today := by
  simp only [buildScheduledValuesDaily] at h
  cases hb : getBuyoutDate s (resolvePurchaseDate s.saleStart s.saleEnd purchaseDay) with
  | none =>
    rw [hb] at h
    exact absurd h (by simp)
  | some b =>
    simp only [hb] at h
    have hm0 : ∀ kv ∈ addValueIfPast today []
        (resolvePurchaseDate s.saleStart s.saleEnd purchaseDay)
        (round2 s.emissionPrice), kv.2.date ≤ today := by
      apply addValueIfPast_forall (P := fun v => v.date ≤ today)
      · intro kv hkv
        exact absurd hkv (List.not_mem_nil kv)
      · intro hle
        exact hle
    by_cases hots : s.bondType = "OTS"
    · rw [if_pos hots] at h
      cases ha : otsInterestAmount s purchaseDay
          (resolvePurchaseDate s.saleStart s.saleEnd purchaseDay) b with
      | none =>
        rw [ha] at h
        exact absurd h (by simp)
      | some amount =>
        simp only [ha] at h
        have hvs := Option.some.inj h
        intro v hv
        rw [← hvs] at hv
        rw [mem_sortByDate] at hv
        obtain ⟨kv, hkv, hkv2⟩ := List.mem_map.1 hv
        rw [← hkv2]
        revert hkv
        by_cases htot : 0 < daysBetween (resolvePurchaseDate s.saleStart s.saleEnd purchaseDay) b
        · rw [if_pos htot]
          apply otsDailyGo_forall (P := fun v => v.date ≤ today) _ _ _ _ _ _ _ hm0
          intro j h1 h2
          show addDays (resolvePurchaseDate s.saleStart s.saleEnd purchaseDay) (j : Int) ≤ today
          unfold addDays
          unfold daysBetween at h2
          by_cases ht : today < b
          · rw [if_pos ht] at h2
            omega
          · rw [if_neg ht] at h2
            omega
        · rw [if_neg htot]
          exact fun hkv => hm0 kv hkv
    · rw [if_neg hots] at h
      by_cases hpc : max s.rateValues.length s.interestValues.length = 0
      · rw [if_pos hpc] at h
        exact absurd h (by simp)
      · rw [if_neg hpc] at h
        by_cases hper : buildPeriods (resolvePurchaseDate s.saleStart s.saleEnd purchaseDay) b
            (max s.rateValues.length s.interestValues.length)
            (resolvePeriodMonths
              (termMonthsOf s (resolvePurchaseDate s.saleStart s.saleEnd purchaseDay) b)
              (max s.rateValues.length s.interestValues.length)) = []
        · rw [if_pos hper] at h
          exact absurd h (by simp)
        · rw [if_neg hper] at h
          have hvs := Option.some.inj h
          intro v hv
          rw [← hvs] at hv
          rw [mem_sortByDate] at hv
          obtain ⟨kv, hkv, hkv2⟩ := List.mem_map.1 hv
          rw [← hkv2]
          exact schedDailyGo_dates_le s today _ 0 s.emissionPrice _ hm0 kv hkv

/-- Witness for C5: the OTS scenario series built on its own purchase date
yields the single purchase-day point, dated not after today. -/
theorem c5_daily_backfill_only_witness :
    (⟨daysFromCivil 2024 3 1, round2 100⟩ : DailyValue).date ≤ daysFromCivil 2024 3 1 :=
  c5_daily_backfill_only exOts (some 1) (daysFromCivil 2024 3 1)
    [⟨daysFromCivil 2024 3 1, round2 100⟩] rfl
    ⟨daysFromCivil 2024 3 1, round2 100⟩ (List.mem_singleton.2 rfl)

/-! ## Theorems: workbook cache transition system -/

theorem get?_lt_length {α : Type} {l : List α} {i : Nat} {a : α}
    (h : l.get? i = some a) : i < l.length := by
  by_contra hge
  rw [List.get?_eq_none.2 (by omega)] at h
  exact Option.noConfusion h

/-- Setting a caller to a non-initiator phase creates no initiator entry. -/
theorem get?_set_awaitingInit {callers : List CallerPhase} {c : Nat} {ph : CallerPhase}
    (hph : ∀ id, ph ≠ .awaitingInit id) (hlt : c < callers.length) {c' id : Nat}
    (hc' : (callers.set c ph).get? c' = some (.awaitingInit id)) :
    callers.get? c' = some (.awaitingInit id) := by
  by_cases hcc : c' = c
  · subst hcc
    rw [List.get?_set_eq_of_lt _ hlt] at hc'
    exact absurd (Option.some.inj hc') (hph id)
  · rw [List.get?_set_ne _ _ (fun hh => hcc hh.symm)] at hc'
    exact hc'

theorem wbInv_init (n : Nat) : WbInv (wbInit n) := by
  refine ⟨?_, ?_, ?_, ?_⟩
  · intro id h
    simp [wbInit] at h
  · intro c id hc
    simp only [wbInit, List.get?_eq_getElem?, List.getElem?_replicate] at hc
    split at hc
    · exact absurd (Option.some.inj hc) (by simp)
    · exact Option.noConfusion hc
  · intro c1 c2 id hc1 hc2
    simp only [wbInit, List.get?_eq_getElem?, List.getElem?_replicate] at hc1
    split at hc1
    · exact absurd (Option.some.inj hc1) (by simp)
    · exact Option.noConfusion hc1
  · intro id h
    simp [wbInit] at h

/-- Every step preserves the invariant (no scheduling assumption). -/
theorem wbInv_step {s : CacheState} (hs : WbInv s) (st : WbStep) :
    WbInv (execStep s st) := by
  obtain ⟨cache, fetches, callers⟩ := s
  obtain ⟨h1, h2, h3, h4⟩ := hs
  cases st with
  | call c =>
    simp only [execStep]
    by_cases hc : callers.get? c = some .idle
    · rw [if_pos hc]
      cases cache with
      | some id0 =>
        have hph : ∀ id, CallerPhase.awaitingShare id0 ≠ .awaitingInit id :=
          fun id h => CallerPhase.noConfusion h
        refine ⟨?_, ?_, ?_, ?_⟩
        · intro id hp
          exact h1 id hp
        · intro c' id hc'
          exact h2 c' id (get?_set_awaitingInit hph (get?_lt_length hc) hc')
        · intro c1 c2 id hc1 hc2
          exact h3 c1 c2 id (get?_set_awaitingInit hph (get?_lt_length hc) hc1)
            (get?_set_awaitingInit hph (get?_lt_length hc) hc2)
        · intro id hcid
          exact h4 id hcid
      | none =>
        refine ⟨?_, ?_, ?_, ?_⟩
        · intro id hp
          show (some fetches.length : Option Nat) = some id
          by_cases hid : id < fetches.length
          · rw [List.get?_append hid] at hp
            exact absurd (h1 id hp) (by simp)
          · have hlen : id < (fetches ++ [FetchStatus.pending]).length := get?_lt_length hp
            simp only [List.length_append, List.length_singleton] at hlen
            have hideq : id = fetches.length := by omega
            rw [hideq]
        · intro c' id hc'
          by_cases hcc : c' = c
          · subst hcc
            rw [List.get?_set_eq_of_lt _ (get?_lt_length hc)] at hc'
            have hideq := CallerPhase.awaitingInit.inj (Option.some.inj hc')
            show (some fetches.length : Option Nat) = some id
            rw [hideq]
          · rw [List.get?_set_ne _ _ (fun hh => hcc hh.symm)] at hc'
            exact absurd (h2 c' id hc') (by simp)
        · intro c1 c2 id hc1 hc2
          by_cases hcc1 : c1 = c
          · by_cases hcc2 : c2 = c
            · rw [hcc1, hcc2]
            · rw [List.get?_set_ne _ _ (fun hh => hcc2 hh.symm)] at hc2
              exact absurd (h2 c2 id hc2) (by simp)
          · rw [List.get?_set_ne _ _ (fun hh => hcc1 hh.symm)] at hc1
            exact absurd (h2 c1 id hc1) (by simp)
        · intro id hcid
          have hideq : fetches.length = id := Option.some.inj hcid
          simp only [List.length_append, List.length_singleton]
          omega
    · rw [if_neg hc]
      exact ⟨h1, h2, h3, h4⟩
  | settle id ok =>
    simp only [execStep]
    by_cases hp : fetches.get? id = some .pending
    · rw [if_pos hp]
      refine ⟨?_, ?_, ?_, ?_⟩
      · intro id' hp'
        by_cases hii : id' = id
        · subst hii
          rw [List.get?_set_eq_of_lt _ (get?_lt_length hp)] at hp'
          have := Option.some.inj hp'
          cases ok <;> simp at this
        · rw [List.get?_set_ne _ _ (fun hh => hii hh.symm)] at hp'
          exact h1 id' hp'
      · intro c' id' hc'
        exact h2 c' id' hc'
      · intro c1 c2 id' hc1 hc2
        exact h3 c1 c2 id' hc1 hc2
      · intro id' hcid
        rw [List.length_set]
        exact h4 id' hcid
    · rw [if_neg hp]
      exact ⟨h1, h2, h3, h4⟩
  | resume c =>
    simp only [execStep]
    split
    next id hcr =>
      split
      next hf =>
        have hph : ∀ id', CallerPhase.doneOk id ≠ .awaitingInit id' :=
          fun id' h => CallerPhase.noConfusion h
        refine ⟨?_, ?_, ?_, ?_⟩
        · intro id' hp'
          exact h1 id' hp'
        · intro c' id' hc'
          exact h2 c' id' (get?_set_awaitingInit hph (get?_lt_length hcr) hc')
        · intro c1 c2 id' hc1 hc2
          exact h3 c1 c2 id' (get?_set_awaitingInit hph (get?_lt_length hcr) hc1)
            (get?_set_awaitingInit hph (get?_lt_length hcr) hc2)
        · intro id' hcid
          exact h4 id' hcid
      next hf =>
        have hph : ∀ id', CallerPhase.doneErr id ≠ .awaitingInit id' :=
          fun id' h => CallerPhase.noConfusion h
        refine ⟨?_, ?_, ?_, ?_⟩
        · intro id' hp'
          exfalso
          have hcache1 := h1 id' hp'
          have hcache2 := h2 c id hcr
          rw [hcache2] at hcache1
          have hii : id = id' := Option.some.inj hcache1
          subst hii
          rw [hp'] at hf
          exact absurd (Option.some.inj hf) (by simp)
        · intro c' id' hc'
          exfalso
          by_cases hcc : c' = c
          · subst hcc
            rw [List.get?_set_eq_of_lt _ (get?_lt_length hcr)] at hc'
            exact absurd (Option.some.inj hc') (by simp)
          · rw [List.get?_set_ne _ _ (fun hh => hcc hh.symm)] at hc'
            have e1 := h2 c' id' hc'
            have e2 := h2 c id hcr
            rw [e2] at e1
            have hii : id = id' := Option.some.inj e1
            subst hii
            exact hcc (h3 c' c id hc' hcr)
        · intro c1 c2 id' hc1 hc2
          exact h3 c1 c2 id' (get?_set_awaitingInit hph (get?_lt_length hcr) hc1)
            (get?_set_awaitingInit hph (get?_lt_length hcr) hc2)
        · intro id' hcid
          exact Option.noConfusion hcid
      next x hf1 hf2 => exact ⟨h1, h2, h3, h4⟩
    next id hcr =>
      split
      next hf =>
        have hph : ∀ id', CallerPhase.doneOk id ≠ .awaitingInit id' :=
          fun id' h => CallerPhase.noConfusion h
        refine ⟨?_, ?_, ?_, ?_⟩
        · intro id' hp'
          exact h1 id' hp'
        · intro c' id' hc'
          exact h2 c' id' (get?_set_awaitingInit hph (get?_lt_length hcr) hc')
        · intro c1 c2 id' hc1 hc2
          exact h3 c1 c2 id' (get?_set_awaitingInit hph (get?_lt_length hcr) hc1)
            (get?_set_awaitingInit hph (get?_lt_length hcr) hc2)
        · intro id' hcid
          exact h4 id' hcid
      next hf =>
        have hph : ∀ id', CallerPhase.doneErr id ≠ .awaitingInit id' :=
          fun id' h => CallerPhase.noConfusion h
        refine ⟨?_, ?_, ?_, ?_⟩
        · intro id' hp'
          exact h1 id' hp'
        · intro c' id' hc'
          exact h2 c' id' (get?_set_awaitingInit hph (get?_lt_length hcr) hc')
        · intro c1 c2 id' hc1 hc2
          exact h3 c1 c2 id' (get?_set_awaitingInit hph (get?_lt_length hcr) hc1)
            (get?_set_awaitingInit hph (get?_lt_length hcr) hc2)
        · intro id' hcid
          exact h4 id' hcid
      next x hf1 hf2 => exact ⟨h1, h2, h3, h4⟩
    next x hns => exact ⟨h1, h2, h3, h4⟩

/-- The invariant holds after any trace from an invariant state. -/
theorem wbInv_trace : ∀ (tr : List WbStep) (s : CacheState), WbInv s →
    WbInv (execTrace s tr) := by
  intro tr
  induction tr with
  | nil => intro s hs; exact hs
  | cons st rest ih =>
    intro s hs
    exact ih (execStep s st) (wbInv_step hs st)

theorem no_pending_filter : ∀ (l : List FetchStatus), (∀ i, l.get? i ≠ some .pending) →
    l.filter (fun st => st == .pending) = [] := by
  intro l
  induction l with
  | nil => intro _; rfl
  | cons x xs ih =>
    intro h
    have hx : (x == FetchStatus.pending) = false := by
      cases x with
      | pending => exact absurd rfl (h 0)
      | resolved => rfl
      | rejected => rfl
    rw [List.filter_cons, hx]
    simp only [Bool.false_eq_true, if_false]
    exact ih (fun i => h (i + 1))

theorem filter_pending_le_one : ∀ (l : List FetchStatus),
    (∀ i j, l.get? i = some .pending → l.get? j = some .pending → i = j) →
    (l.filter (fun st => st == .pending)).length ≤ 1 := by
  intro l
  induction l with
  | nil => intro _; simp
  | cons x xs ih =>
    intro h
    by_cases hx : x = .pending
    · subst hx
      have hxs : xs.filter (fun st => st == .pending) = [] := by
        apply no_pending_filter
        intro i hi
        have := h (i + 1) 0 hi rfl
        omega
      rw [List.filter_cons]
      have hbp : (FetchStatus.pending == FetchStatus.pending) = true := rfl
      simp only [hbp, if_true, hxs]
      exact Nat.le_refl 1
    · have hxb : (x == FetchStatus.pending) = false := by
        cases x with
        | pending => exact absurd rfl hx
        | resolved => rfl
        | rejected => rfl
      rw [List.filter_cons, hxb]
      simp only [Bool.false_eq_true, if_false]
      exact ih (fun i j hi hj => by
        have := h (i + 1) (j + 1) hi hj
        omega)

/-- Under the invariant at most one fetch is in flight. -/
theorem wbInv_pendingCount {s : CacheState} (hs : WbInv s) : pendingCount s ≤ 1 := by
  unfold pendingCount
  apply filter_pending_le_one
  intro i j hi hj
  have hci := hs.1 i hi
  have hcj := hs.1 j hj
  rw [hci] at hcj
  exact Option.some.inj hcj

/-- C8: `getWorkbook` memoizes a single shared fetch.  A call that finds a
cached fetch shares it, starting no network request; a call that finds no
cache starts exactly one fresh fetch and becomes its initiator; when a fetch
fails, the initiating invocation's continuation clears the memoized entry in
the same step in which the error reaches it, so the next call starts from
scratch; a resolved cached workbook survives every further event; and along
every execution from the initial state at most one fetch is ever in
flight. -/
theorem c8_workbook_memoization :
    (∀ (s : CacheState) (c id : Nat), s.cache = some id →
      (execStep s (.call c)).fetches = s.fetches ∧
      (execStep s (.call c)).cache = s.cache ∧
      (s.callers.get? c = some .idle →
        (execStep s (.call c)).callers.get? c = some (.awaitingShare id))) ∧
    (∀ (s : CacheState) (c : Nat), s.cache = none → s.callers.get? c = some .idle →
      (execStep s (.call c)).fetches = s.fetches ++ [.pending] ∧
      (execStep s (.call c)).cache = some s.fetches.length ∧
      (execStep s (.call c)).callers.get? c = some (.awaitingInit s.fetches.length)) ∧
    (∀ (s : CacheState) (c id : Nat), s.callers.get? c = some (.awaitingInit id) →
      s.fetches.get? id = some .rejected →
      (execStep s (.resume c)).cache = none ∧
      (execStep s (.resume c)).callers.get? c = some (.doneErr id)) ∧
    (∀ (s : CacheState) (id : Nat), WbInv s → s.cache = some id →
      s.fetches.get? id = some .resolved → ∀ st : WbStep,
      (execStep s st).cache = some id ∧ (execStep s st).fetches.get? id = some .resolved) ∧
    (∀ (n : Nat) (tr : List WbStep), pendingCount (execTrace (wbInit n) tr) ≤ 1) := by
  refine ⟨?_, ?_, ?_, ?_, ?_⟩
  · intro s c id hcache
    obtain ⟨cache, fetches, callers⟩ := s
    have hceq : cache = some id := hcache
    subst hceq
    simp only [execStep]
    by_cases hc : callers.get? c = some .idle
    · rw [if_pos hc]
      refine ⟨rfl, rfl, fun _ => ?_⟩
      rw [List.get?_set_eq_of_lt _ (get?_lt_length hc)]
    · rw [if_neg hc]
      exact ⟨rfl, rfl, fun hidle => absurd hidle hc⟩
  · intro s c hcache hidle
    obtain ⟨cache, fetches, callers⟩ := s
    have hceq : cache = none := hcache
    subst hceq
    simp only [execStep]
    rw [if_pos hidle]
    refine ⟨rfl, rfl, ?_⟩
    rw [List.get?_set_eq_of_lt _ (get?_lt_length hidle)]
  · intro s c id hc hr
    obtain ⟨cache, fetches, callers⟩ := s
    simp only [execStep, hc, hr]
    refine ⟨trivial, ?_⟩
    rw [List.get?_set_eq_of_lt _ (get?_lt_length hc)]
  · intro s id hinv hcache hres st
    obtain ⟨h1, h2, h3, h4⟩ := hinv
    obtain ⟨cache, fetches, callers⟩ := s
    have hceq : cache = some id := hcache
    subst hceq
    cases st with
    | call c =>
      simp only [execStep]
      by_cases hc : callers.get? c = some .idle
      · rw [if_pos hc]
        exact ⟨rfl, hres⟩
      · rw [if_neg hc]
        exact ⟨rfl, hres⟩
    | settle id' ok =>
      simp only [execStep]
      by_cases hp : fetches.get? id' = some .pending
      · exfalso
        have := Option.some.inj (h1 id' hp)
        subst this
        rw [hres] at hp
        exact absurd (Option.some.inj hp) (by simp)
      · rw [if_neg hp]
        exact ⟨rfl, hres⟩
    | resume c =>
      simp only [execStep]
      split
      next id' hcr =>
        split
        next hf => exact ⟨rfl, hres⟩
        next hf =>
          exfalso
          have e2 := h2 c id' hcr
          have hii : id = id' := Option.some.inj e2
          subst hii
          rw [hres] at hf
          exact absurd (Option.some.inj hf) (by simp)
        next x hf1 hf2 => exact ⟨rfl, hres⟩
      next id' hcr =>
        split
        next hf => exact ⟨rfl, hres⟩
        next hf => exact ⟨rfl, hres⟩
        next x hf1 hf2 => exact ⟨rfl, hres⟩
      next x hns => exact ⟨rfl, hres⟩
  · intro n tr
    exact wbInv_pendingCount (wbInv_trace tr (wbInit n) (wbInv_init n))

/-- Witness for C8: the initiator of a failed fetch clears the cache and
receives the error. -/
theorem c8_workbook_memoization_witness :
    (execStep (execTrace (wbInit 2) [.call 0, .settle 0 false]) (.resume 0)).cache = none ∧
    (execStep (execTrace (wbInit 2) [.call 0, .settle 0 false]) (.resume 0)).callers.get? 0
      = some (.doneErr 0) :=
  c8_workbook_memoization.2.2.1 (execTrace (wbInit 2) [.call 0, .settle 0 false]) 0 0
    (by decide) (by decide)

/-! ## Theorems: daily-variant map well-formedness and sorting -/

theorem goodMap_nil : GoodMap [] :=
  ⟨fun kv hkv => absurd hkv (List.not_mem_nil kv), List.Pairwise.nil⟩

/-- `addValue` keeps the map well-formed. -/
theorem goodMap_addValue {m : List (String × DailyValue)} (hm : GoodMap m)
    (date : Int) (price : ℚ) : GoodMap (addValue m date price) := by
  obtain ⟨hkey, hnd⟩ := hm
  unfold addValue mapSet
  by_cases hany : m.any (fun kv => kv.1 == formatDateISO date) = true
  · rw [if_pos hany]
    constructor
    · intro kv hkv
      obtain ⟨kv', hkv', heq⟩ := List.mem_map.1 hkv
      by_cases hk : (kv'.1 == formatDateISO date) = true
      · rw [if_pos hk] at heq
        rw [← heq]
      · rw [if_neg hk] at heq
        rw [← heq]
        exact hkey kv' hkv'
    · have hsame : (m.map (fun kv =>
          if kv.1 == formatDateISO date then (formatDateISO date, (⟨date, price⟩ : DailyValue))
          else kv)).map (fun kv => kv.1) = m.map (fun kv => kv.1) := by
        rw [List.map_map]
        apply List.map_congr_left
        intro kv hkv
        by_cases hk : (kv.1 == formatDateISO date) = true
        · show (if kv.1 == formatDateISO date then
              (formatDateISO date, (⟨date, price⟩ : DailyValue)) else kv).1 = kv.1
          rw [if_pos hk]
          exact (eq_of_beq hk).symm
        · show (if kv.1 == formatDateISO date then
              (formatDateISO date, (⟨date, price⟩ : DailyValue)) else kv).1 = kv.1
          rw [if_neg hk]
      rw [hsame]
      exact hnd
  · rw [if_neg hany]
    constructor
    · intro kv hkv
      rcases List.mem_append.1 hkv with hmem | hmem
      · exact hkey kv hmem
      · rw [List.mem_singleton.1 hmem]
    · rw [List.map_append]
      have hnotin : formatDateISO date ∉ m.map (fun kv => kv.1) := by
        intro hin
        obtain ⟨kv, hkv, hkeq⟩ := List.mem_map.1 hin
        have hkv2 := List.any_eq_false.1 (by rwa [Bool.not_eq_true] at hany) kv hkv
        simp [hkeq] at hkv2
      simp [List.nodup_append, hnd, hnotin]

/-- `addValueIfPast` keeps the map well-formed. -/
theorem goodMap_addValueIfPast {today : Int} {m : List (String × DailyValue)}
    (hm : GoodMap m) (date : Int) (price : ℚ) :
    GoodMap (addValueIfPast today m date price) := by
  unfold addValueIfPast
  by_cases h : date ≤ today
  · rw [if_pos h]
    exact goodMap_addValue hm date price
  · rw [if_neg h]
    exact hm

/-- The OTS daily loop keeps the map well-formed. -/
theorem goodMap_otsDailyGo (p : Int) (emission amount : ℚ) (totalDays : Nat) :
    ∀ (k off : Nat) (m : List (String × DailyValue)), GoodMap m →
    GoodMap (otsDailyGo p emission amount totalDays k off m) := by
  intro k
  induction k with
  | zero => intro off m hm; exact hm
  | succ n ih =>
    intro off m hm
    simp only [otsDailyGo]
    exact ih (off + 1) _ (goodMap_addValue hm _ _)

/-- The per-period daily loop keeps the map well-formed. -/
theorem goodMap_periodDailyGo (start : Int) (currentValue amount : ℚ) (periodDays : Nat) :
    ∀ (k off : Nat) (m : List (String × DailyValue)), GoodMap m →
    GoodMap (periodDailyGo start currentValue amount periodDays k off m) := by
  intro k
  induction k with
  | zero => intro off m hm; exact hm
  | succ n ih =>
    intro off m hm
    simp only [periodDailyGo]
    exact ih (off + 1) _ (goodMap_addValue hm _ _)

/-- The per-period daily driver keeps the map well-formed. -/
theorem goodMap_schedDailyGo (s : BondSeries) (today : Int) :
    ∀ (periods : List Period) (i : Nat) (cur : ℚ) (m : List (String × DailyValue)),
    GoodMap m → GoodMap (schedDailyGo s today periods i cur m) := by
  intro periods
  induction periods with
  | nil => intro i cur m hm; exact hm
  | cons per rest ih =>
    intro i cur m hm
    simp only [schedDailyGo]
    by_cases hni : s.rateValues.getD i none = none ∧ s.interestValues.getD i none = none
    · rw [if_pos hni]
      exact ih _ _ _ hm
    · rw [if_neg hni]
      cases hp : periodInterestAmount (s.rateValues.getD i none) (s.interestValues.getD i none)
          cur (daysBetween per.start per.stop) with
      | none => exact ih _ _ _ hm
      | some amount =>
        apply ih
        apply goodMap_addValueIfPast
        by_cases hcond : per.start < (if today < per.stop then today else per.stop) ∧
            0 < daysBetween per.start per.stop
        · rw [if_pos hcond]
          exact goodMap_periodDailyGo _ _ _ _ _ _ _ hm
        · rw [if_neg hcond]
          exact hm

/-- A well-formed map has pairwise-distinct value dates. -/
theorem goodMap_dates_nodup {m : List (String × DailyValue)} (hm : GoodMap m) :
    (m.map (fun kv => kv.2.date)).Nodup := by
  have hkeys : m.map (fun kv => kv.1) =
      (m.map (fun kv => kv.2.date)).map formatDateISO := by
    rw [List.map_map]
    exact List.map_congr_left (fun kv hkv => hm.1 kv hkv)
  have hnd := hm.2
  rw [hkeys] at hnd
  exact hnd.of_map formatDateISO

/-- `insertByDate` permutes the inserted element onto the list. -/
theorem insertByDate_perm (v : DailyValue) :
    ∀ l : List DailyValue, (insertByDate v l).Perm (v :: l) := by
  intro l
  induction l with
  | nil => exact List.Perm.refl _
  | cons w ws ih =>
    unfold insertByDate
    by_cases h : v.date ≤ w.date
    · rw [if_pos h]
    · rw [if_neg h]
      exact (ih.cons w).trans (List.Perm.swap v w ws)

/-- `sortByDate` is a permutation. -/
theorem sortByDate_perm : ∀ l : List DailyValue, (sortByDate l).Perm l := by
  intro l
  induction l with
  | nil => exact List.Perm.refl _
  | cons v vs ih =>
    unfold sortByDate
    exact (insertByDate_perm v (sortByDate vs)).trans (ih.cons v)

/-- `insertByDate` preserves sortedness by date. -/
theorem insertByDate_pairwise (v : DailyValue) :
    ∀ l : List DailyValue,
    List.Pairwise (fun a b : DailyValue => a.date ≤ b.date) l →
    List.Pairwise (fun a b : DailyValue => a.date ≤ b.date) (insertByDate v l) := by
  intro l
  induction l with
  | nil =>
    intro _
    exact List.pairwise_singleton _ _
  | cons w ws ih =>
    intro hp
    obtain ⟨hw, hws⟩ := List.pairwise_cons.1 hp
    unfold insertByDate
    by_cases h : v.date ≤ w.date
    · rw [if_pos h]
      refine List.pairwise_cons.2 ⟨?_, hp⟩
      intro x hx
      rcases List.mem_cons.1 hx with heq | hx
      · rw [heq]
        exact h
      · exact le_trans h (hw x hx)
    · rw [if_neg h]
      refine List.pairwise_cons.2 ⟨?_, ih hws⟩
      intro x hx
      rcases (mem_insertByDate v x ws).1 hx with heq | hx
      · rw [heq]
        exact le_of_not_le h
      · exact hw x hx

/-- `sortByDate` output is sorted by date. -/
theorem sortByDate_pairwise : ∀ l : List DailyValue,
    List.Pairwise (fun a b : DailyValue => a.date ≤ b.date) (sortByDate l) := by
  intro l
  induction l with
  | nil => exact List.Pairwise.nil
  | cons v vs ih =>
    unfold sortByDate
    exact insertByDate_pairwise v _ ih

/-- Sorting a list with pairwise-distinct dates yields strictly ascending
dates. -/
theorem sortByDate_strict {l : List DailyValue}
    (h : (l.map (fun v => v.date)).Nodup) :
    List.Chain' (· < ·) ((sortByDate l).map (fun v => v.date)) ∧
    ((sortByDate l).map (fun v => v.date)).Nodup := by
  have hperm : ((sortByDate l).map (fun v => v.date)).Perm (l.map (fun v => v.date)) :=
    (sortByDate_perm l).map _
  have hnd : ((sortByDate l).map (fun v => v.date)).Nodup := hperm.nodup_iff.2 h
  have hle : List.Pairwise (· ≤ ·) ((sortByDate l).map (fun v => v.date)) :=
    List.Pairwise.map _ (fun a b hab => hab) (sortByDate_pairwise l)
  constructor
  · rw [List.chain'_iff_pairwise]
    exact (hle.and hnd).imp (fun hh => lt_of_le_of_ne hh.1 hh.2)
  · exact hnd

/-- Any schedule the daily variant returns has strictly ascending,
duplicate-free dates: the date-keyed map dedupes and the final sort orders. -/
theorem dailySchedule_strict (s : BondSeries) (purchaseDay : Option Nat) (today : Int)
    (ws : List DailyValue) (h : buildScheduledValuesDaily s purchaseDay today = some ws) :
    List.Chain' (· < ·) (ws.map (fun v => v.date)) ∧ (ws.map (fun v => v.date)).Nodup := by
  simp only [buildScheduledValuesDaily] at h
  cases hb : getBuyoutDate s (resolvePurchaseDate s.saleStart s.saleEnd purchaseDay) with
  | none =>
    rw [hb] at h
    exact absurd h (by simp)
  | some b =>
    simp only [hb] at h
    have hm0 : GoodMap (addValueIfPast today []
        (resolvePurchaseDate s.saleStart s.saleEnd purchaseDay) (round2 s.emissionPrice)) :=
      goodMap_addValueIfPast goodMap_nil _ _
    by_cases hots : s.bondType = "OTS"
    · rw [if_pos hots] at h
      cases ha : otsInterestAmount s purchaseDay
          (resolvePurchaseDate s.saleStart s.saleEnd purchaseDay) b with
      | none =>
        rw [ha] at h
        exact absurd h (by simp)
      | some amount =>
        simp only [ha] at h
        have hvs := Option.some.inj h
        rw [← hvs]
        have hgood : GoodMap (if 0 < daysBetween
            (resolvePurchaseDate s.saleStart s.saleEnd purchaseDay) b then
          otsDailyGo (resolvePurchaseDate s.saleStart s.saleEnd purchaseDay) s.emissionPrice
            amount (daysBetween (resolvePurchaseDate s.saleStart s.saleEnd purchaseDay) b)
            (daysBetween (resolvePurchaseDate s.saleStart s.saleEnd purchaseDay)
              (if today < b then today else b)) 1
            (addValueIfPast today [] (resolvePurchaseDate s.saleStart s.saleEnd purchaseDay)
              (round2 s.emissionPrice))
          else addValueIfPast today []
            (resolvePurchaseDate s.saleStart s.saleEnd purchaseDay)
            (round2 s.emissionPrice)) := by
          by_cases htot : 0 < daysBetween
              (resolvePurchaseDate s.saleStart s.saleEnd purchaseDay) b
          · rw [if_pos htot]
            exact goodMap_otsDailyGo _ _ _ _ _ _ _ hm0
          · rw [if_neg htot]
            exact hm0
        apply sortByDate_strict
        rw [List.map_map]
        exact goodMap_dates_nodup hgood
    · rw [if_neg hots] at h
      by_cases hpc : max s.rateValues.length s.interestValues.length = 0
      · rw [if_pos hpc] at h
        exact absurd h (by simp)
      · rw [if_neg hpc] at h
        by_cases hper : buildPeriods (resolvePurchaseDate s.saleStart s.saleEnd purchaseDay) b
            (max s.rateValues.length s.interestValues.length)
            (resolvePeriodMonths
              (termMonthsOf s (resolvePurchaseDate s.saleStart s.saleEnd purchaseDay) b)
              (max s.rateValues.length s.interestValues.length)) = []
        · rw [if_pos hper] at h
          exact absurd h (by simp)
        · rw [if_neg hper] at h
          have hvs := Option.some.inj h
          rw [← hvs]
          apply sortByDate_strict
          rw [List.map_map]
          exact goodMap_dates_nodup (goodMap_schedDailyGo s today _ 0 s.emissionPrice _ hm0)

/-- The event-based point dates are a sublist of the period end dates. -/
theorem schedValuesGo_dates_sublist (s : BondSeries) :
    ∀ (periods : List Period) (i : Nat) (cur : ℚ),
    List.Sublist ((schedValuesGo s periods i cur).map (fun v => v.date))
      (periods.map (fun per => per.stop)) := by
  intro periods
  induction periods with
  | nil =>
    intro i cur
    exact List.Sublist.refl _
  | cons per rest ih =>
    intro i cur
    simp only [schedValuesGo]
    by_cases hni : s.rateValues.getD i none = none ∧ s.interestValues.getD i none = none
    · rw [if_pos hni]
      exact (ih _ _).cons _
    · rw [if_neg hni]
      cases hp : periodInterestAmount (s.rateValues.getD i none) (s.interestValues.getD i none)
          cur (daysBetween per.start per.stop) with
      | none => exact (ih _ _).cons _
      | some amount => exact List.Sublist.cons₂ _ (ih _ _)

/-- In a strictly ascending list, every element is at most the last one. -/
theorem pairwise_lt_getLast_le : ∀ (l : List Int) (b : Int), List.Pairwise (· < ·) l →
    l.getLast? = some b → ∀ x ∈ l, x ≤ b := by
  intro l
  induction l with
  | nil =>
    intro b _ _ x hx
    exact absurd hx (List.not_mem_nil x)
  | cons a rest ih =>
    intro b hp hl x hx
    obtain ⟨ha, hrest⟩ := List.pairwise_cons.1 hp
    cases rest with
    | nil =>
      rw [List.getLast?_singleton] at hl
      have hab := Option.some.inj hl
      rcases List.mem_singleton.1 hx with heq
      rw [heq, ← hab]
    | cons c cs =>
      rw [List.getLast?_cons_cons] at hl
      rcases List.mem_cons.1 hx with heq | hx2
      · have hcb : c ≤ b := ih b hrest hl c (List.mem_cons_self c cs)
        have hac : a < c := ha c (List.mem_cons_self c cs)
        rw [heq]
        omega
      · exact ih b hrest hl x hx2

/-- C4: the shape claim fails as stated.  A degenerate series whose maturity
date equals the sale start yields two points on the same date (not strictly
ascending), and the daily variant invoked before the purchase date returns a
non-null empty schedule with no purchase-date first point. -/
theorem c4_schedule_shape_counterexample :
    (buildScheduledValues exDeg none).map (fun vs => vs.map (fun v => v.date)) =
      some [daysFromCivil 2024 1 2, daysFromCivil 2024 1 2] ∧
    ¬ List.Chain' (· < ·) [daysFromCivil 2024 1 2, daysFromCivil 2024 1 2] ∧
    buildScheduledValuesDaily exOts (some 1) (daysFromCivil 2024 2 1) = some [] := by
  refine ⟨rfl, ?_, rfl⟩
  intro hch
  exact absurd (List.chain'_cons.1 hch).1 (lt_irrefl _)

/-- C4 (amended): every event-based schedule starts with the purchase date at
the rounded emission price; whenever the period boundaries are strictly
ascending from the purchase date, the event-based points are strictly
ascending with dates in `[purchaseDate, buyoutDate]`; and the daily variant
always returns strictly ascending, duplicate-free dates. -/
theorem c4_schedule_shape_amended (s : BondSeries) (purchaseDay : Option Nat) (today : Int)
    (vs : List DailyValue) (p b : Int) (ends : List Int)
    (hsb : scheduleBounds s purchaseDay = some (p, b, ends))
    (h : buildScheduledValues s purchaseDay = some vs) :
    vs.head? = some ⟨p, round2 s.emissionPrice⟩ ∧
    (List.Chain' (· < ·) (p :: ends) →
      List.Chain' (· < ·) (vs.map (fun v => v.date)) ∧
      ∀ v ∈ vs, p ≤ v.date ∧ v.date ≤ b) ∧
    (∀ ws : List DailyValue, buildScheduledValuesDaily s purchaseDay today = some ws →
      List.Chain' (· < ·) (ws.map (fun v => v.date)) ∧ (ws.map (fun v => v.date)).Nodup) := by
  simp only [scheduleBounds] at hsb
  simp only [buildScheduledValues] at h
  cases hb : getBuyoutDate s (resolvePurchaseDate s.saleStart s.saleEnd purchaseDay) with
  | none =>
    rw [hb] at hsb
    exact absurd hsb (by simp)
  | some b0 =>
    simp only [hb] at hsb h
    by_cases hots : s.bondType = "OTS"
    · rw [if_pos hots] at hsb h
      have h3 := Option.some.inj hsb
      have hpp : resolvePurchaseDate s.saleStart s.saleEnd purchaseDay = p :=
        congrArg Prod.fst h3
      rw [hpp] at h3 h
      have hb2 : b0 = b := congrArg (fun t => t.2.1) h3
      have hends : [b0] = ends := congrArg (fun t => t.2.2) h3
      subst hb2
      subst hends
      cases ha : otsInterestAmount s purchaseDay p b0 with
      | none =>
        rw [ha] at h
        exact absurd h (by simp)
      | some amount =>
        simp only [ha] at h
        have hvs := (Option.some.inj h).symm
        subst hvs
        refine ⟨rfl, ?_, fun ws hws => dailySchedule_strict s purchaseDay today ws hws⟩
        intro hch
        have hlt : p < b0 := (List.chain'_cons.1 hch).1
        constructor
        · exact List.chain'_cons.2 ⟨hlt, List.chain'_singleton _⟩
        · intro v hv
          rcases List.mem_cons.1 hv with heq | hv2
          · rw [heq]
            exact ⟨le_refl p, le_of_lt hlt⟩
          · rcases List.mem_singleton.1 hv2 with heq
            rw [heq]
            exact ⟨le_of_lt hlt, le_refl b0⟩
    · rw [if_neg hots] at hsb h
      have h3 := Option.some.inj hsb
      have hpp : resolvePurchaseDate s.saleStart s.saleEnd purchaseDay = p :=
        congrArg Prod.fst h3
      rw [hpp] at h3 h
      have hb2 : b0 = b := congrArg (fun t => t.2.1) h3
      subst hb2
      have hends : (buildPeriods p b0 (max s.rateValues.length s.interestValues.length)
          (resolvePeriodMonths (termMonthsOf s p b0)
            (max s.rateValues.length s.interestValues.length))).map (fun per => per.stop)
          = ends := congrArg (fun t => t.2.2) h3
      subst hends
      by_cases hpc : max s.rateValues.length s.interestValues.length = 0
      · rw [if_pos hpc] at h
        exact absurd h (by simp)
      · rw [if_neg hpc] at h
        by_cases hper : buildPeriods p b0 (max s.rateValues.length s.interestValues.length)
            (resolvePeriodMonths (termMonthsOf s p b0)
              (max s.rateValues.length s.interestValues.length)) = []
        · rw [if_pos hper] at h
          exact absurd h (by simp)
        · rw [if_neg hper] at h
          have hvs := (Option.some.inj h).symm
          subst hvs
          refine ⟨rfl, ?_, fun ws hws => dailySchedule_strict s purchaseDay today ws hws⟩
          intro hch
          have hlast : ((buildPeriods p b0 (max s.rateValues.length s.interestValues.length)
              (resolvePeriodMonths (termMonthsOf s p b0)
                (max s.rateValues.length s.interestValues.length))).map
                (fun per => per.stop)).getLast? = some b0 := by
            have hk : 1 ≤ max s.rateValues.length s.interestValues.length := by omega
            cases hrm : resolvePeriodMonths (termMonthsOf s p b0)
                (max s.rateValues.length s.interestValues.length) with
            | some pm =>
              have hpm : 1 ≤ pm := resolvePeriodMonths_pos hrm
              rw [buildPeriods_months_eq p b0 _ pm hk (by omega)]
              obtain ⟨lastPer, hgl, hstop⟩ :=
                (buildPeriodsMonthsGo_structure _ p b0 pm hk).2.2.1
              rw [List.getLast?_map, hgl, Option.map_some']
              rw [hstop]
            | none =>
              rw [buildPeriods_days_eq p b0 _ hk]
              unfold buildPeriodsDays
              obtain ⟨lastPer, hgl, hstop⟩ :=
                (buildPeriodsDaysGo_structure _ 0 p b0
                  (daysBetween p b0 / max s.rateValues.length s.interestValues.length)
                  (daysBetween p b0 % max s.rateValues.length s.interestValues.length)
                  hk).2.2
              rw [List.getLast?_map, hgl, Option.map_some']
              rw [hstop]
          have hpair := List.chain'_iff_pairwise.1 hch
          obtain ⟨hpfirst, hptail⟩ := List.pairwise_cons.1 hpair
          have hsub := schedValuesGo_dates_sublist s
            (buildPeriods p b0 (max s.rateValues.length s.interestValues.length)
              (resolvePeriodMonths (termMonthsOf s p b0)
                (max s.rateValues.length s.interestValues.length))) 0 s.emissionPrice
          have hble : ∀ x ∈ (buildPeriods p b0
              (max s.rateValues.length s.interestValues.length)
              (resolvePeriodMonths (termMonthsOf s p b0)
                (max s.rateValues.length s.interestValues.length))).map
                (fun per => per.stop), x ≤ b0 :=
            pairwise_lt_getLast_le _ b0 hptail hlast
          constructor
          · rw [List.map_cons]
            rw [List.chain'_iff_pairwise]
            exact hpair.sublist (List.Sublist.cons₂ p hsub)
          · intro v hv
            rcases List.mem_cons.1 hv with heq | hv2
            · rw [heq]
              refine ⟨le_refl p, ?_⟩
              have hbmem := List.mem_of_mem_getLast? hlast
              exact le_of_lt (hpfirst b0 hbmem)
            · have hdmem : v.date ∈ (buildPeriods p b0
                  (max s.rateValues.length s.interestValues.length)
                  (resolvePeriodMonths (termMonthsOf s p b0)
                    (max s.rateValues.length s.interestValues.length))).map
                  (fun per => per.stop) :=
                hsub.subset (List.mem_map_of_mem _ hv2)
              exact ⟨le_of_lt (hpfirst v.date hdmem), hble v.date hdmem⟩

/-- Witness for the amended C4 at the OTS scenario series. -/
theorem c4_schedule_shape_amended_witness :
    [(⟨daysFromCivil 2024 3 1, round2 exOts.emissionPrice⟩ : DailyValue),
      ⟨daysFromCivil 2025 3 1, round2 (exOts.emissionPrice +
        exOts.emissionPrice * (3/100) *
          ((daysBetween (daysFromCivil 2024 3 1) (daysFromCivil 2025 3 1) : ℚ) / 365))⟩].head?
      = some ⟨daysFromCivil 2024 3 1, round2 exOts.emissionPrice⟩ :=
  (c4_schedule_shape_amended exOts (some 1) 0 _
    (daysFromCivil 2024 3 1) (daysFromCivil 2025 3 1) [daysFromCivil 2025 3 1]
    (by decide) rfl).1

/-! ## Theorems: sticky skip sets and second-pass idempotence -/

/-- Processing a settled symbol changes nothing and writes nothing. -/
theorem processSymbol_noop (env : EngineEnv) (st : EngineState) (sym : String)
    (hs : Settled st sym) : processSymbol env st sym = (st, []) := by
  unfold processSymbol
  split
  next hc => rfl
  next hc =>
    rcases hs with hp | hsk | hn
    · exact absurd (Or.inl (List.elem_iff.2 hp)) hc
    · exact absurd (Or.inr (List.elem_iff.2 hsk)) hc
    · split
      next => rfl
      next m heq =>
        rw [hn] at heq
        exact Option.noConfusion heq

/-- After one processing step the symbol is settled. -/
theorem processSymbol_settles (env : EngineEnv) (st : EngineState) (sym : String) :
    Settled (processSymbol env st sym).1 sym := by
  unfold processSymbol
  split
  next hc =>
    rcases hc with hp | hsk
    · exact Or.inl (List.elem_iff.1 hp)
    · exact Or.inr (Or.inl (List.elem_iff.1 hsk))
  next hc =>
    split
    next hm => exact Or.inr (Or.inr hm)
    next m hm =>
      split
      next hl => exact Or.inr (Or.inl (List.mem_cons_self sym st.skipped))
      next series hl =>
        split
        next hb => exact Or.inr (Or.inl (List.mem_cons_self sym st.skipped))
        next vs hb =>
          split
          next hnil => exact Or.inr (Or.inl (List.mem_cons_self sym st.skipped))
          next hnil => exact Or.inl (List.mem_cons_self sym st.processed)

/-- Processing any symbol keeps every settled symbol settled. -/
theorem processSymbol_mono (env : EngineEnv) (st : EngineState) (sym other : String)
    (hs : Settled st other) : Settled (processSymbol env st sym).1 other := by
  unfold processSymbol
  split
  next hc => exact hs
  next hc =>
    split
    next hm => exact hs
    next m hm =>
      split
      next hl =>
        rcases hs with hp | hsk | hn
        · exact Or.inl hp
        · exact Or.inr (Or.inl (List.mem_cons_of_mem sym hsk))
        · exact Or.inr (Or.inr hn)
      next series hl =>
        split
        next hb =>
          rcases hs with hp | hsk | hn
          · exact Or.inl hp
          · exact Or.inr (Or.inl (List.mem_cons_of_mem sym hsk))
          · exact Or.inr (Or.inr hn)
        next vs hb =>
          split
          next hnil =>
            rcases hs with hp | hsk | hn
            · exact Or.inl hp
            · exact Or.inr (Or.inl (List.mem_cons_of_mem sym hsk))
            · exact Or.inr (Or.inr hn)
          next hnil =>
            rcases hs with hp | hsk | hn
            · exact Or.inl (List.mem_cons_of_mem sym hp)
            · exact Or.inr (Or.inl hsk)
            · exact Or.inr (Or.inr hn)

/-- The state component of the refresh fold, with the write accumulator
abstracted away. -/
theorem runRefresh_fold_state (env : EngineEnv) :
    ∀ (syms : List String) (st : EngineState) (acc : List Quote),
    (syms.foldl (fun acc symbol =>
      ((processSymbol env acc.1 symbol).1, acc.2 ++ (processSymbol env acc.1 symbol).2))
      (st, acc)).1 =
    syms.foldl (fun s sym => (processSymbol env s sym).1) st := by
  intro syms
  induction syms with
  | nil => intro st acc; rfl
  | cons y ys ih => intro st acc; exact ih _ _

/-- Every held symbol is settled along the rest of the fold. -/
theorem foldl_settled (env : EngineEnv) :
    ∀ (syms : List String) (st : EngineState) (sym : String), Settled st sym →
    Settled (syms.foldl (fun s sy => (processSymbol env s sy).1) st) sym := by
  intro syms
  induction syms with
  | nil => intro st sym hs; exact hs
  | cons y ys ih =>
    intro st sym hs
    exact ih _ sym (processSymbol_mono env st y sym hs)

/-- Every listed symbol is settled after folding over the list. -/
theorem foldl_settles_mem (env : EngineEnv) :
    ∀ (syms : List String) (st : EngineState) (sym : String), sym ∈ syms →
    Settled (syms.foldl (fun s sy => (processSymbol env s sy).1) st) sym := by
  intro syms
  induction syms with
  | nil =>
    intro st sym hmem
    exact absurd hmem (List.not_mem_nil sym)
  | cons y ys ih =>
    intro st sym hmem
    rcases List.mem_cons.1 hmem with heq | hmem2
    · rw [heq]
      exact foldl_settled env ys _ y (processSymbol_settles env st y)
    · exact ih _ sym hmem2

/-- Every held symbol is settled after a full pass. -/
theorem runRefresh_settles (env : EngineEnv) (st : EngineState) (sym : String)
    (hmem : sym ∈ env.symbols) : Settled (runRefresh env st).1 sym := by
  unfold runRefresh
  rw [runRefresh_fold_state env env.symbols st []]
  exact foldl_settles_mem env env.symbols st sym hmem

/-- A pass over entirely settled symbols is a no-op. -/
theorem runRefresh_noop (env : EngineEnv) (st : EngineState)
    (hall : ∀ sym ∈ env.symbols, Settled st sym) : runRefresh env st = (st, []) := by
  unfold runRefresh
  have hgen : ∀ (syms : List String), (∀ sym ∈ syms, Settled st sym) →
      syms.foldl (fun acc symbol =>
        ((processSymbol env acc.1 symbol).1, acc.2 ++ (processSymbol env acc.1 symbol).2))
        (st, []) = (st, []) := by
    intro syms
    induction syms with
    | nil => intro _; rfl
    | cons y ys ih =>
      intro hset
      have hy := processSymbol_noop env st y (hset y (List.mem_cons_self y ys))
      show ys.foldl _ ((processSymbol env st y).1, [] ++ (processSymbol env st y).2) = (st, [])
      rw [hy]
      exact ih (fun sym hsym => hset sym (List.mem_cons_of_mem y hsym))
  exact hgen env.symbols hall

/-- A freshly built quote never differs from its own price. -/
theorem priceChanged_buildQuote_self (sym : String) (d : Int) (pr : ℚ) :
    priceChanged (buildQuote sym d pr) pr = false := by
  apply decide_eq_false
  show ¬(|recordedPrice (buildQuote sym d pr) - pr| > 4 / 1000)
  have hrec : recordedPrice (buildQuote sym d pr) = pr := rfl
  rw [hrec, sub_self, abs_zero]
  norm_num

/-- C7: the second pass writes nothing, but the claim's last clause fails:
after the first pass on a schedule with a duplicated date, re-running the
diff for the symbol still yields a non-empty update set (the store keeps the
later price for the shared id, which differs from the earlier point beyond
tolerance). -/
theorem c7_second_run_counterexample :
    (runRefresh exEnvDup (runRefresh exEnvDup exState0).1).2 = [] ∧
    buildScheduledValues exDup none =
      some [⟨daysFromCivil 2024 1 2, round2 exDup.emissionPrice⟩,
        ⟨daysFromCivil 2024 1 3, round2 (exDup.emissionPrice + 1)⟩,
        ⟨daysFromCivil 2024 1 3, round2 (round2 (exDup.emissionPrice + 1) + 2)⟩] ∧
    computeQuotesToAdd 0 (storeGet (runRefresh exEnvDup exState0).1.store "DOS0101")
      "DOS0101"
      [⟨daysFromCivil 2024 1 2, round2 exDup.emissionPrice⟩,
        ⟨daysFromCivil 2024 1 3, round2 (exDup.emissionPrice + 1)⟩,
        ⟨daysFromCivil 2024 1 3, round2 (round2 (exDup.emissionPrice + 1) + 2)⟩] ≠ [] := by
  refine ⟨rfl, rfl, ?_⟩
  have hhist : storeGet (runRefresh exEnvDup exState0).1.store "DOS0101" =
      [buildQuote "DOS0101" (daysFromCivil 2024 1 2) (round2 exDup.emissionPrice),
       buildQuote "DOS0101" (daysFromCivil 2024 1 3)
         (round2 (round2 (exDup.emissionPrice + 1) + 2))] := rfl
  rw [hhist]
  apply List.ne_nil_of_mem
    (a := buildQuotePayload "DOS0101" (daysFromCivil 2024 1 3)
      (round2 (exDup.emissionPrice + 1))
      (some (buildQuote "DOS0101" (daysFromCivil 2024 1 3)
        (round2 (round2 (exDup.emissionPrice + 1) + 2)))))
  apply List.mem_filterMap.2
  refine ⟨⟨daysFromCivil 2024 1 3, round2 (exDup.emissionPrice + 1)⟩,
    List.mem_cons_of_mem _ (List.mem_cons_self _ _), ?_⟩
  have hfq : firstQuoteAt 0
      [buildQuote "DOS0101" (daysFromCivil 2024 1 2) (round2 exDup.emissionPrice),
       buildQuote "DOS0101" (daysFromCivil 2024 1 3)
         (round2 (round2 (exDup.emissionPrice + 1) + 2))]
      (formatDateISO (daysFromCivil 2024 1 3)) =
      some (buildQuote "DOS0101" (daysFromCivil 2024 1 3)
        (round2 (round2 (exDup.emissionPrice + 1) + 2))) := rfl
  have hpc : priceChanged (buildQuote "DOS0101" (daysFromCivil 2024 1 3)
      (round2 (round2 (exDup.emissionPrice + 1) + 2)))
      (round2 (exDup.emissionPrice + 1)) = true := by
    apply decide_eq_true
    show |recordedPrice (buildQuote "DOS0101" (daysFromCivil 2024 1 3)
      (round2 (round2 (exDup.emissionPrice + 1) + 2))) -
        round2 (exDup.emissionPrice + 1)| > 4 / 1000
    show |round2 (round2 ((100 : ℚ) + 1) + 2) - round2 ((100 : ℚ) + 1)| > 4 / 1000
    have h2 : round2 (round2 ((100 : ℚ) + 1) + 2) - round2 ((100 : ℚ) + 1) = 2 := by
      norm_num [round2]
    rw [h2, abs_of_nonneg (by norm_num : (0 : ℚ) ≤ 2)]
    norm_num
  simp only [classifyPoint, hfq, hpc, if_true]

/-- C7 (amended): a second pass with unchanged holdings, history and source
is a complete no-op (state unchanged, zero writes); after a pass every held
symbol is processed, skipped, or unparseable; and for a schedule with
pairwise-distinct dates (the OTS scenario) re-running the diff against the
stored history is empty. -/
theorem c7_second_run_amended :
    (∀ (env : EngineEnv) (st : EngineState),
      runRefresh env (runRefresh env st).1 = ((runRefresh env st).1, [])) ∧
    (∀ (env : EngineEnv) (st : EngineState) (sym : String), sym ∈ env.symbols →
      sym ∈ (runRefresh env st).1.processed ∨ sym ∈ (runRefresh env st).1.skipped ∨
        parseBondSymbol sym = none) ∧
    (buildScheduledValues exOts (some 1) =
      some [⟨daysFromCivil 2024 3 1, round2 exOts.emissionPrice⟩,
        ⟨daysFromCivil 2025 3 1, round2 (exOts.emissionPrice + exOts.emissionPrice * (3/100) *
          ((daysBetween (daysFromCivil 2024 3 1) (daysFromCivil 2025 3 1) : ℚ) / 365))⟩] ∧
    computeQuotesToAdd 0 (storeGet (runRefresh exEnvOts exState0).1.store "OTS0325.1")
      "OTS0325.1"
      [⟨daysFromCivil 2024 3 1, round2 exOts.emissionPrice⟩,
        ⟨daysFromCivil 2025 3 1, round2 (exOts.emissionPrice + exOts.emissionPrice * (3/100) *
          ((daysBetween (daysFromCivil 2024 3 1) (daysFromCivil 2025 3 1) : ℚ) / 365))⟩]
      = []) := by
  refine ⟨?_, ?_, rfl, ?_⟩
  · intro env st
    exact runRefresh_noop env _ (fun sym hmem => runRefresh_settles env st sym hmem)
  · intro env st sym hmem
    exact runRefresh_settles env st sym hmem
  · have hhist : storeGet (runRefresh exEnvOts exState0).1.store "OTS0325.1" =
        [buildQuote "OTS0325.1" (daysFromCivil 2024 3 1) (round2 exOts.emissionPrice),
         buildQuote "OTS0325.1" (daysFromCivil 2025 3 1)
           (round2 (exOts.emissionPrice + exOts.emissionPrice * (3/100) *
             ((daysBetween (daysFromCivil 2024 3 1) (daysFromCivil 2025 3 1) : ℚ) / 365)))]
        := rfl
    rw [hhist]
    have hfq1 : firstQuoteAt 0
        [buildQuote "OTS0325.1" (daysFromCivil 2024 3 1) (round2 exOts.emissionPrice),
         buildQuote "OTS0325.1" (daysFromCivil 2025 3 1)
           (round2 (exOts.emissionPrice + exOts.emissionPrice * (3/100) *
             ((daysBetween (daysFromCivil 2024 3 1) (daysFromCivil 2025 3 1) : ℚ) / 365)))]
        (formatDateISO (daysFromCivil 2024 3 1)) =
        some (buildQuote "OTS0325.1" (daysFromCivil 2024 3 1)
          (round2 exOts.emissionPrice)) := rfl
    have hfq2 : firstQuoteAt 0
        [buildQuote "OTS0325.1" (daysFromCivil 2024 3 1) (round2 exOts.emissionPrice),
         buildQuote "OTS0325.1" (daysFromCivil 2025 3 1)
           (round2 (exOts.emissionPrice + exOts.emissionPrice * (3/100) *
             ((daysBetween (daysFromCivil 2024 3 1) (daysFromCivil 2025 3 1) : ℚ) / 365)))]
        (formatDateISO (daysFromCivil 2025 3 1)) =
        some (buildQuote "OTS0325.1" (daysFromCivil 2025 3 1)
          (round2 (exOts.emissionPrice + exOts.emissionPrice * (3/100) *
            ((daysBetween (daysFromCivil 2024 3 1) (daysFromCivil 2025 3 1) : ℚ) / 365))))
        := rfl
    have hc1 : classifyPoint 0
        [buildQuote "OTS0325.1" (daysFromCivil 2024 3 1) (round2 exOts.emissionPrice),
         buildQuote "OTS0325.1" (daysFromCivil 2025 3 1)
           (round2 (exOts.emissionPrice + exOts.emissionPrice * (3/100) *
             ((daysBetween (daysFromCivil 2024 3 1) (daysFromCivil 2025 3 1) : ℚ) / 365)))]
        "OTS0325.1" ⟨daysFromCivil 2024 3 1, round2 exOts.emissionPrice⟩ = none := by
      simp only [classifyPoint, hfq1, priceChanged_buildQuote_self, Bool.false_eq_true,
        if_false]
    have hc2 : classifyPoint 0
        [buildQuote "OTS0325.1" (daysFromCivil 2024 3 1) (round2 exOts.emissionPrice),
         buildQuote "OTS0325.1" (daysFromCivil 2025 3 1)
           (round2 (exOts.emissionPrice + exOts.emissionPrice * (3/100) *
             ((daysBetween (daysFromCivil 2024 3 1) (daysFromCivil 2025 3 1) : ℚ) / 365)))]
        "OTS0325.1" ⟨daysFromCivil 2025 3 1,
          round2 (exOts.emissionPrice + exOts.emissionPrice * (3/100) *
            ((daysBetween (daysFromCivil 2024 3 1) (daysFromCivil 2025 3 1) : ℚ) / 365))⟩
        = none := by
      simp only [classifyPoint, hfq2, priceChanged_buildQuote_self, Bool.false_eq_true,
        if_false]
    show List.filterMap _ _ = []
    rw [List.filterMap_cons_none hc1, List.filterMap_cons_none hc2, List.filterMap_nil]

/-- Witness for the amended C7: the second pass over the duplicate-date
environment leaves the engine state unchanged and writes nothing. -/
theorem c7_second_run_amended_witness :
    runRefresh exEnvDup (runRefresh exEnvDup exState0).1 =
      ((runRefresh exEnvDup exState0).1, []) :=
  c7_second_run_amended.1 exEnvDup exState0
